import Mathlib

/-!
Verification development for the embedded transactional key-value store
(`ext/kv`): a shallow embedding of the SQLite-backed database operations
(`sqlite.rs`) and the op-layer validation and selector logic (`lib.rs`),
with theorems settling the specified properties.

Modelling conventions:
* Byte strings (`Vec<u8>`, SQLite blobs) are `List Nat`; a well-formed byte
  is `< 256`.
* The SQLite tables are association lists / row lists inside `DbState`;
  SQL point reads, upserts and range scans are embedded as list functions
  whose observable behaviour (lookup by primary key, sorted scans)
  coincides with the statements in `sqlite.rs`.
* Machine integers: `i64` columns are `Int`, `u64` quantities are `Nat`
  with explicit `% 2 ^ 64` where the source wraps.
* Fallible paths return `Except String`, carrying the source's
  `type_error` message text. `rusqlite` transactions roll back when dropped
  without commit; the embedding reflects this by returning the unchanged
  state alongside an error at the op layer.
* Randomness (UUID v4 generation for enqueue ids) is a `Nat → String`
  parameter; wall-clock time is a `Nat` parameter (`now`, milliseconds).
* The JSON (de)serialization of `backoff_schedule` (`Option<Vec<u64>>`) and
  `keys_if_undelivered` (`Vec<Vec<u8>>`) done by `serde_json` is embedded by
  storing the deserialized values in the queue rows; the one place the code
  inspects the raw JSON text (`!keys_if_undelivered.is_empty()` on the
  stored string in `requeue_message`) re-serializes with `jsonEncodeKeys`.
-/

namespace DenoKv

/-- Byte strings (Rust `Vec<u8>` and SQLite blobs) as lists of naturals. -/
abbrev Bytes := List Nat

/-- Strict lexicographic order on byte strings: pointwise comparison with a
strict proper-prefix ordered first. This is Rust slice `Ord` and SQLite blob
ordering, used by `kv` range scans and by the cursor bounds checks. -/
def bytesLt : Bytes → Bytes → Bool
  | [], [] => false
  | [], _ :: _ => true
  | _ :: _, [] => false
  | x :: xs, y :: ys => decide (x < y) || (x == y && bytesLt xs ys)

/-- Big-endian base-256 digits of `n`, `w` bytes wide (`i64::to_be_bytes`
restricted to the used value range). -/
def beBytes : Nat → Nat → Bytes
  | 0, _ => []
  | w + 1, n => n / 256 ^ w :: beBytes w (n % 256 ^ w)

/-- Embeds `version_to_versionstamp`: the 8 big-endian bytes of the i64
version (two's complement) followed by two zero bytes. -/
def version_to_versionstamp (version : Int) : Bytes :=
  beBytes 8 ((version % (2 ^ 64 : Int)).toNat) ++ [0, 0]

/-- Embeds `crate::Value`: V8-serialized bytes, raw bytes, or a u64. -/
inductive Value where
  | v8 (data : Bytes)
  | bytes (data : Bytes)
  | u64 (n : Nat)
deriving DecidableEq

def VALUE_ENCODING_V8 : Int := 1
def VALUE_ENCODING_LE64 : Int := 2
def VALUE_ENCODING_BYTES : Int := 3

/-- Little-endian 8-byte representation (`u64::to_le_bytes`). -/
def toLeBytes8 (n : Nat) : Bytes :=
  [n % 256, n / 256 % 256, n / 256 ^ 2 % 256, n / 256 ^ 3 % 256,
   n / 256 ^ 4 % 256, n / 256 ^ 5 % 256, n / 256 ^ 6 % 256, n / 256 ^ 7 % 256]

/-- Little-endian byte-list value (`u64::from_le_bytes` on an 8-byte list). -/
def fromLeBytes8 (b : Bytes) : Nat :=
  b.foldr (fun x acc => x + 256 * acc) 0

/-- Embeds `encode_value`. -/
def encode_value : Value → Bytes × Int
  | .v8 data => (data, VALUE_ENCODING_V8)
  | .bytes data => (data, VALUE_ENCODING_BYTES)
  | .u64 n => (toLeBytes8 n, VALUE_ENCODING_LE64)

/-- Embeds `decode_value`; `none` models the `todo!()` panic on an unknown
encoding tag and the 8-byte precondition of the `copy_from_slice` into the
`u64::from_le_bytes` buffer. -/
def decode_value (value : Bytes) (encoding : Int) : Option Value :=
  if encoding = VALUE_ENCODING_V8 then some (.v8 value)
  else if encoding = VALUE_ENCODING_BYTES then some (.bytes value)
  else if encoding = VALUE_ENCODING_LE64 then
    if value.length = 8 then some (.u64 (fromLeBytes8 value)) else none
  else none

/-- Row of the `kv` table: `(k, v, v_encoding, version, expiration_ms)`;
`expiration_ms = -1` means no expiration. -/
structure KvRow where
  k : Bytes
  v : Bytes
  v_encoding : Int
  version : Int
  expiration_ms : Int
deriving DecidableEq

/-- Row of the `queue` (ready) table. `backoff_schedule` and
`keys_if_undelivered` store the `serde_json`-decoded forms of the text
columns. -/
structure QueueRow where
  ts : Nat
  id : String
  data : Bytes
  backoff_schedule : Option (List Nat)
  keys_if_undelivered : List Bytes
deriving DecidableEq

/-- Row of the `queue_running` table. -/
structure QueueRunningRow where
  deadline : Nat
  id : String
  data : Bytes
  backoff_schedule : Option (List Nat)
  keys_if_undelivered : List Bytes
deriving DecidableEq

/-- The database state: the `data_version` singleton counter and the three
mutable tables. -/
structure DbState where
  data_version : Int
  kv : List KvRow
  queue : List QueueRow
  queue_running : List QueueRunningRow
deriving DecidableEq

/-- Point lookup by primary key (`select .. from kv where k = ?`). -/
def kv_point_get (kv : List KvRow) (key : Bytes) : Option KvRow :=
  kv.find? (fun r => r.k == key)

/-- Upsert (`STATEMENT_KV_POINT_SET`: insert .. on conflict(k) do update). -/
def kv_point_set (kv : List KvRow) (row : KvRow) : List KvRow :=
  row :: kv.filter (fun r => !(r.k == row.k))

/-- Point delete (`STATEMENT_KV_POINT_DELETE`). -/
def kv_point_delete (kv : List KvRow) (key : Bytes) : List KvRow :=
  kv.filter (fun r => !(r.k == key))

/-- The current versionstamp of a row as used by the check loop of
`atomic_write` (`STATEMENT_KV_POINT_GET_VERSION_ONLY` + map); absence is
`none`. -/
def current_versionstamp (kv : List KvRow) (key : Bytes) : Option Bytes :=
  (kv_point_get kv key).map fun r => version_to_versionstamp r.version

/-- Embeds `MutationKind`. -/
inductive MutationKind where
  | set (value : Value)
  | delete
  | sum (operand : Value)
  | min (operand : Value)
  | max (operand : Value)
deriving DecidableEq

/-- Modelled from the spec: `MutationKind::value` is declared in the
interface module, which is not among the provided sources; per the spec's
"Total payload (keys + values + payloads)" limit it yields the value
carried by the mutation, if any. -/
def MutationKind.value : MutationKind → Option Value
  | .set v => some v
  | .delete => none
  | .sum v => some v
  | .min v => some v
  | .max v => some v

/-- Embeds `KvCheck` (versionstamp already hex-decoded to 10 bytes). -/
structure KvCheck where
  key : Bytes
  versionstamp : Option Bytes
deriving DecidableEq

/-- Embeds `KvMutation`; `expire_at` is absolute milliseconds (u64). -/
structure KvMutation where
  key : Bytes
  kind : MutationKind
  expire_at : Option Nat
deriving DecidableEq

/-- Embeds `Enqueue`. -/
structure Enqueue where
  payload : Bytes
  delay_ms : Nat
  keys_if_undelivered : List Bytes
  backoff_schedule : Option (List Nat)
deriving DecidableEq

/-- Embeds `AtomicWrite`. -/
structure AtomicWrite where
  checks : List KvCheck
  mutations : List KvMutation
  enqueues : List Enqueue
deriving DecidableEq

/-- Embeds the expiry translation of `KvMutation::try_from` in `lib.rs`:
`expire_at = expire_in.map(|t| current_timestamp + t)`. -/
def kvMutationFromV8 (key : Bytes) (kind : MutationKind) (expire_in : Option Nat)
    (current_timestamp : Nat) : KvMutation :=
  ⟨key, kind, expire_in.map fun t => current_timestamp + t⟩

/-- Embeds the `Set` arm's expiry conversion in `SqliteDb::atomic_write`:
`expire_at.and_then(|x| i64::try_from(x).ok()).unwrap_or(-1)`. -/
def expire_at_to_i64 : Option Nat → Int
  | none => -1
  | some x => if x ≤ 2 ^ 63 - 1 then (x : Int) else -1

/-- Embeds `mutate_le64`. -/
def mutate_le64 (kv : List KvRow) (key : Bytes) (op_name : String) (operand : Value)
    (new_version : Int) (mutate : Nat → Nat → Nat) : Except String (List KvRow) :=
  match operand with
  | .u64 op =>
    match (kv_point_get kv key).map fun r => decode_value r.v r.v_encoding with
    | some (some (.u64 old)) =>
      .ok (kv_point_set kv
        ⟨key, toLeBytes8 (mutate old op), VALUE_ENCODING_LE64, new_version, -1⟩)
    | some (some _) =>
      .error ("Failed to perform '" ++ op_name ++ "' mutation on a non-U64 value in the database")
    | some none =>
      .error ("kv: panicked while decoding a stored value")
    | none =>
      .ok (kv_point_set kv
        ⟨key, toLeBytes8 op, VALUE_ENCODING_LE64, new_version, -1⟩)
  | _ => .error ("Failed to perform '" ++ op_name ++ "' mutation on a non-U64 operand")

/-- Embeds one iteration of the mutation loop of `SqliteDb::atomic_write`,
including the combining closures passed to `mutate_le64` (`wrapping_add`,
`min`, `max`). -/
def applyMutation (version : Int) (kv : List KvRow) (mutation : KvMutation) :
    Except String (List KvRow) :=
  match mutation.kind with
  | .set value =>
    .ok (kv_point_set kv
      ⟨mutation.key, (encode_value value).1, (encode_value value).2, version,
       expire_at_to_i64 mutation.expire_at⟩)
  | .delete => .ok (kv_point_delete kv mutation.key)
  | .sum operand =>
    mutate_le64 kv mutation.key "sum" operand version (fun a b => (a + b) % 2 ^ 64)
  | .min operand =>
    mutate_le64 kv mutation.key "min" operand version (fun a b => Nat.min a b)
  | .max operand =>
    mutate_le64 kv mutation.key "max" operand version (fun a b => Nat.max a b)

/-- The mutation loop of `SqliteDb::atomic_write`, in input order. -/
def applyMutations (version : Int) (kv : List KvRow) (mutations : List KvMutation) :
    Except String (List KvRow) :=
  mutations.foldlM (fun acc m => applyMutation version acc m) kv

def DEFAULT_BACKOFF_SCHEDULE : List Nat := [100, 1000, 5000, 30000, 60000]

/-- The enqueue loop of `SqliteDb::atomic_write`: one ready row per enqueue
at `ts = now + delay_ms` with a fresh id drawn from `freshIds` (modelling
`Uuid::new_v4`), the backoff schedule defaulted, and the dead-letter keys
serialized alongside. -/
def enqueueRows (now : Nat) (freshIds : Nat → String) (i : Nat) :
    List Enqueue → List QueueRow
  | [] => []
  | e :: rest =>
    ⟨now + e.delay_ms, freshIds i, e.payload,
     some (e.backoff_schedule.getD DEFAULT_BACKOFF_SCHEDULE),
     e.keys_if_undelivered⟩ :: enqueueRows now freshIds (i + 1) rest

/-- Embeds the transaction closure of `SqliteDb::atomic_write`: check loop,
`STATEMENT_INC_AND_GET_DATA_VERSION`, mutation loop, enqueue loop, commit.
A failed check returns `(state, none)` with the transaction rolled back; a
mutation error aborts the transaction (the caller keeps the old state). -/
def atomic_write (st : DbState) (write : AtomicWrite) (now : Nat)
    (freshIds : Nat → String) : Except String (DbState × Option Bytes) :=
  if write.checks.all (fun c => current_versionstamp st.kv c.key == c.versionstamp) then
    match applyMutations (st.data_version + 1) st.kv write.mutations with
    | .error e => .error e
    | .ok kv' =>
      .ok ({ data_version := st.data_version + 1, kv := kv',
             queue := st.queue ++ enqueueRows now freshIds 0 write.enqueues,
             queue_running := st.queue_running },
           some (version_to_versionstamp (st.data_version + 1)))
  else
    .ok (st, none)

/-- Embeds a `ReadRange` (`start ≤ k < end`, limit > 0, direction). -/
structure ReadRange where
  start : Bytes
  end_ : Bytes
  limit : Nat
  reverse : Bool
deriving DecidableEq

/-- Entry returned by `snapshot_read` (`KvEntry`); the value is `none` when
the stored encoding cannot be decoded (a panic in the source). -/
structure KvEntry where
  key : Bytes
  value : Option Value
  versionstamp : Bytes
deriving DecidableEq

/-- Sorted insertion by key, realising SQL `order by k asc`. -/
def insertRowSorted (r : KvRow) : List KvRow → List KvRow
  | [] => [r]
  | x :: xs => if bytesLt r.k x.k then r :: x :: xs else x :: insertRowSorted r xs

def sortRowsByKey : List KvRow → List KvRow
  | [] => []
  | x :: xs => insertRowSorted x (sortRowsByKey xs)

/-- Embeds `STATEMENT_KV_RANGE_SCAN` / `STATEMENT_KV_RANGE_SCAN_REVERSE`:
rows with `k >= start and k < end`, ordered by key (descending when
`reverse`), limited. Note there is no expiration filter in the statement. -/
def kv_range_scan (kv : List KvRow) (start end_ : Bytes) (limit : Nat)
    (reverse : Bool) : List KvRow :=
  let inRange := kv.filter (fun r => !bytesLt r.k start && bytesLt r.k end_)
  let sorted := sortRowsByKey inRange
  (if reverse then sorted.reverse else sorted).take limit

/-- Embeds the transaction closure of `SqliteDb::snapshot_read`: one range
scan per request, rows decoded into `KvEntry`s. -/
def snapshot_read (st : DbState) (requests : List ReadRange) : List (List KvEntry) :=
  requests.map fun request =>
    (kv_range_scan st.kv request.start request.end_ request.limit request.reverse).map
      fun r => ⟨r.k, decode_value r.v r.v_encoding, version_to_versionstamp r.version⟩

/-- Embeds one sweep of `watch_expiration`:
`delete from kv where expiration_ms >= 0 and expiration_ms <= now`. -/
def watch_expiration_sweep (now : Nat) (st : DbState) : DbState :=
  { st with
    kv := st.kv.filter
            (fun r => decide (¬(0 ≤ r.expiration_ms ∧ r.expiration_ms ≤ (now : Int)))) }

/-- JSON text of a natural number, as `serde_json` renders a `u64`. -/
def jsonEncodeNat (n : Nat) : List Char :=
  (toString n).data

/-- JSON text of a byte array, as `serde_json` renders a `Vec<u8>`. -/
def jsonEncodeNatList (xs : List Nat) : List Char :=
  '[' :: List.intercalate [','] (xs.map jsonEncodeNat) ++ [']']

/-- JSON text of the `keys_if_undelivered` column, as `serde_json` renders
a `Vec<Vec<u8>>`; `requeue_message` tests this text for emptiness. -/
def jsonEncodeKeys (ks : List Bytes) : List Char :=
  '[' :: List.intercalate [','] (ks.map jsonEncodeNatList) ++ [']']

/-- Embeds `SqliteQueue::requeue_message` (one transaction): read the
running row by id; if its parsed backoff schedule is non-empty, insert a
ready row at `now + head` carrying the tail; otherwise, if the raw
`keys_if_undelivered` JSON text is non-empty, increment the data version
and upsert the payload as a V8 value under each key; in all cases delete
the running row. Returns whether a requeue happened. -/
def requeue_message (id : String) (st : DbState) (now : Nat) :
    Except String (DbState × Bool) :=
  match st.queue_running.find? (fun r => r.id == id) with
  | none => .ok (st, false)
  | some row =>
    match row.backoff_schedule.getD [] with
    | d :: rest =>
      .ok ({ st with
              queue := st.queue ++ [⟨now + d, row.id, row.data, some rest,
                                     row.keys_if_undelivered⟩],
              queue_running := st.queue_running.filter (fun r => !(r.id == id)) },
           true)
    | [] =>
      if (jsonEncodeKeys row.keys_if_undelivered).isEmpty then
        .ok ({ st with
                queue_running := st.queue_running.filter (fun r => !(r.id == id)) },
             false)
      else
        let version := st.data_version + 1
        .ok ({ st with
                data_version := version,
                kv := row.keys_if_undelivered.foldl
                  (fun kv key =>
                    kv_point_set kv ⟨key, row.data, VALUE_ENCODING_V8, version, -1⟩)
                  st.kv,
                queue_running := st.queue_running.filter (fun r => !(r.id == id)) },
             false)

/-- Embeds `DequeuedMessage` (connection and waker elided): the id and the
take-able payload. -/
structure DequeuedMessage where
  id : String
  payload : Option Bytes
deriving DecidableEq

/-- Embeds `DequeuedMessage::take_payload`: `self.payload.take()` with a
typed error once consumed. -/
def take_payload (m : DequeuedMessage) : Except String Bytes × DequeuedMessage :=
  match m.payload with
  | some p => (.ok p, { m with payload := none })
  | none => (.error "Payload already consumed", m)

/-- Embeds the construction of the handle in `SqliteQueue::dequeue`
(`payload: Some(payload)`). -/
def dequeuedMessageOf (id : String) (payload : Bytes) : DequeuedMessage :=
  ⟨id, some payload⟩

def MAX_WRITE_KEY_SIZE_BYTES : Nat := 2048
def MAX_VALUE_SIZE_BYTES : Nat := 65536
def MAX_CHECKS : Nat := 10
def MAX_MUTATIONS : Nat := 1000
def MAX_TOTAL_MUTATION_SIZE_BYTES : Nat := 800 * 1024
def MAX_TOTAL_KEY_SIZE_BYTES : Nat := 80 * 1024

/-- Embeds `check_write_key_size`, returning the counted size. -/
def check_write_key_size (key : Bytes) : Except String Nat :=
  if key.length > MAX_WRITE_KEY_SIZE_BYTES then
    .error "key too large for write (max 2048 bytes)"
  else .ok key.length

/-- Embeds `check_value_size`, returning the counted size (`U64` counts 8). -/
def check_value_size (value : Value) : Except String Nat :=
  match value with
  | .u64 _ => .ok 8
  | .v8 payload =>
    if payload.length > MAX_VALUE_SIZE_BYTES then .error "value too large (max 65536 bytes)"
    else .ok payload.length
  | .bytes payload =>
    if payload.length > MAX_VALUE_SIZE_BYTES then .error "value too large (max 65536 bytes)"
    else .ok payload.length

/-- Embeds `check_enqueue_payload_size`. -/
def check_enqueue_payload_size (payload : Bytes) : Except String Nat :=
  if payload.length > MAX_VALUE_SIZE_BYTES then
    .error "enqueue payload too large (max 65536 bytes)"
  else .ok payload.length

/-- Element-wise effectful map over `Except`, stopping at the first error
(the shape of the accumulation loops in `op_kv_atomic_write`). -/
def exceptMapM (f : α → Except String Nat) : List α → Except String (List Nat)
  | [] => .ok []
  | x :: xs =>
    match f x with
    | .error e => .error e
    | .ok y =>
      match exceptMapM f xs with
      | .error e => .error e
      | .ok ys => .ok (y :: ys)

/-- Embeds the validation phase of `op_kv_atomic_write`, performed before
`db.atomic_write` is invoked: the check/mutation counts, the per-key
emptiness and size checks (checks' keys then mutations' keys), the value
and enqueue-payload size checks, and the two running totals. -/
def validate_atomic_write (checks : List KvCheck) (mutations : List KvMutation)
    (enqueues : List Enqueue) : Except String Unit :=
  if checks.length > MAX_CHECKS then .error "too many checks (max 10)"
  else if mutations.length + enqueues.length > MAX_MUTATIONS then
    .error "too many mutations (max 1000)"
  else
    (exceptMapM
        (fun key =>
          if key.isEmpty then .error "key cannot be empty"
          else check_write_key_size key)
        (checks.map (fun c => c.key) ++ mutations.map (fun m => m.key))).bind
      fun keySizes =>
    (exceptMapM check_value_size (mutations.filterMap fun m => m.kind.value)).bind
      fun valueSizes =>
    (exceptMapM (fun e => check_enqueue_payload_size e.payload) enqueues).bind
      fun payloadSizes =>
    let total_payload_size := keySizes.sum + valueSizes.sum + payloadSizes.sum
    let total_key_size := keySizes.sum
    if total_payload_size > MAX_TOTAL_MUTATION_SIZE_BYTES then
      .error "total mutation size too large (max 819200 bytes)"
    else if total_key_size > MAX_TOTAL_KEY_SIZE_BYTES then
      .error "total key size too large (max 81920 bytes)"
    else .ok ()

/-- Embeds `op_kv_atomic_write` over an open database: validation first
(surfaced synchronously, before any transaction, leaving the state
untouched), then the transactional `atomic_write` (whose errors roll
back). -/
def op_kv_atomic_write (st : DbState) (checks : List KvCheck)
    (mutations : List KvMutation) (enqueues : List Enqueue) (now : Nat)
    (freshIds : Nat → String) : DbState × Except String (Option Bytes) :=
  match validate_atomic_write checks mutations enqueues with
  | .error e => (st, .error e)
  | .ok _ =>
    match atomic_write st ⟨checks, mutations, enqueues⟩ now freshIds with
    | .error e => (st, .error e)
    | .ok (st', r) => (st', .ok r)

/-- Embeds `RawSelector` (keys already encoded). -/
inductive RawSelector where
  | prefixed (pfx : Bytes) (start : Option Bytes) (end_ : Option Bytes)
  | range (start : Bytes) (end_ : Bytes)
deriving DecidableEq

/-- Embeds `RawSelector::from_tuple`. -/
def RawSelector.from_tuple (pfx start end_ : Option Bytes) :
    Except String RawSelector :=
  match pfx, start, end_ with
  | some p, none, none => .ok (.prefixed p none none)
  | some p, some s, none => .ok (.prefixed p (some s) none)
  | some p, none, some e => .ok (.prefixed p none (some e))
  | none, some s, some e => .ok (.range s e)
  | none, some s, none => .ok (.range s (s ++ [0]))
  | _, _, _ => .error "invalid range"

/-- Embeds `RawSelector::start`: the declared start bound, if any. -/
def RawSelector.startOpt : RawSelector → Option Bytes
  | .prefixed _ s _ => s
  | .range s _ => some s

/-- Embeds `RawSelector::end`: the declared end bound, if any. -/
def RawSelector.endOpt : RawSelector → Option Bytes
  | .prefixed _ _ e => e
  | .range _ e => some e

/-- Embeds `common_prefix_for_bytes`: longest shared byte run. -/
def common_prefix_for_bytes : Bytes → Bytes → Bytes
  | x :: xs, y :: ys => if x = y then x :: common_prefix_for_bytes xs ys else []
  | _, _ => []

/-- Embeds `RawSelector::common_prefix`. -/
def RawSelector.common_part : RawSelector → Bytes
  | .prefixed p _ _ => p
  | .range s e => common_prefix_for_bytes s e

/-- Embeds `RawSelector::range_start_key`. -/
def RawSelector.range_start_key : RawSelector → Bytes
  | .prefixed _ (some s) _ => s
  | .range s _ => s
  | .prefixed p none _ => p ++ [0]

/-- Embeds `RawSelector::range_end_key`. -/
def RawSelector.range_end_key : RawSelector → Bytes
  | .prefixed _ _ (some e) => e
  | .range _ e => e
  | .prefixed p _ none => p ++ [255]

/-- One sextet of the URL-safe base64 alphabet. -/
def b64UrlDecodeChar (c : Char) : Option Nat :=
  if 'A' ≤ c ∧ c ≤ 'Z' then some (c.toNat - 65)
  else if 'a' ≤ c ∧ c ≤ 'z' then some (c.toNat - 97 + 26)
  else if '0' ≤ c ∧ c ≤ '9' then some (c.toNat - 48 + 52)
  else if c = '-' then some 62
  else if c = '_' then some 63
  else none

/-- Embeds `BASE64_URL_SAFE.decode`: URL-safe alphabet, canonical trailing
'=' padding only, nonzero trailing bits rejected. -/
def base64UrlDecode : List Char → Option Bytes
  | [] => some []
  | a :: b :: c :: d :: rest => do
    let va ← b64UrlDecodeChar a
    let vb ← b64UrlDecodeChar b
    if c = '=' then
      if d = '=' ∧ rest = [] ∧ vb % 16 = 0 then some [va * 4 + vb / 16] else none
    else do
      let vc ← b64UrlDecodeChar c
      if d = '=' then
        if rest = [] ∧ vc % 4 = 0 then
          some [va * 4 + vb / 16, vb % 16 * 16 + vc / 4]
        else none
      else do
        let vd ← b64UrlDecodeChar d
        let t ← base64UrlDecode rest
        some ((va * 4 + vb / 16) :: (vb % 16 * 16 + vc / 4) :: (vc % 4 * 64 + vd) :: t)
  | _ => none

/-- Embeds `decode_selector_and_cursor`. -/
def decode_selector_and_cursor (selector : RawSelector) (reverse : Bool)
    (cursor : Option (List Char)) : Except String (Bytes × Bytes) :=
  match cursor with
  | none => .ok (selector.range_start_key, selector.range_end_key)
  | some cur =>
    match base64UrlDecode cur with
    | none => .error "invalid cursor"
    | some cursorBytes =>
      let cp := selector.common_part
      let first_key := if reverse then selector.range_start_key else cp ++ cursorBytes ++ [0]
      let last_key := if reverse then cp ++ cursorBytes else selector.range_end_key
      if (match selector.startOpt with
          | some s => bytesLt first_key s
          | none => false) then .error "cursor out of bounds"
      else if (match selector.endOpt with
          | some e => bytesLt e last_key
          | none => false) then .error "cursor out of bounds"
      else .ok (first_key, last_key)

/-- A sequence of atomic writes applied in order against one database
(each with its wall clock and id source); collects the versionstamps of
the committing writes. Non-committing writes (check failure or error)
leave the state unchanged. -/
def runWrites (st : DbState) :
    List (AtomicWrite × Nat × (Nat → String)) → DbState × List Bytes
  | [] => (st, [])
  | (w, now, freshIds) :: rest =>
    match atomic_write st w now freshIds with
    | .error _ => runWrites st rest
    | .ok (st', none) => runWrites st' rest
    | .ok (st', some vs) =>
      let r := runWrites st' rest
      (r.1, vs :: r.2)

/-! ### Lemmas about point lookups -/

theorem find?_filter_of_imp (l : List α) (p q : α → Bool)
    (h : ∀ a, q a = true → p a = true) : (l.filter p).find? q = l.find? q := by
  induction l with
  | nil => rfl
  | cons a l ih =>
    by_cases hq : q a = true
    · rw [List.filter_cons, h a hq]
      simp [List.find?_cons, hq, ih]
    · rw [List.filter_cons]
      by_cases hp : p a = true
      · simp only [hp, if_true]
        simp only [Bool.not_eq_true] at hq
        simp [List.find?_cons, hq, ih]
      · simp only [Bool.not_eq_true] at hq hp
        simp [hp, List.find?_cons, hq, ih]

theorem find?_filter_none (l : List α) (p q : α → Bool)
    (h : ∀ a, p a = true → q a = false) : (l.filter p).find? q = none := by
  induction l with
  | nil => rfl
  | cons a l ih =>
    rw [List.filter_cons]
    by_cases hp : p a = true
    · simp [hp, List.find?_cons, h a hp, ih]
    · simp only [Bool.not_eq_true] at hp
      simp [hp, ih]

theorem kv_point_get_set (kv : List KvRow) (row : KvRow) (key : Bytes) :
    kv_point_get (kv_point_set kv row) key =
      if row.k = key then some row else kv_point_get kv key := by
  by_cases h : row.k = key
  · simp [kv_point_get, kv_point_set, List.find?_cons, h]
  · simp only [kv_point_get, kv_point_set, List.find?_cons]
    have : (row.k == key) = false := by simp [h]
    simp only [this, if_neg h]
    exact find?_filter_of_imp kv _ _ (by
      intro a ha
      simp only [beq_iff_eq] at ha ⊢
      simp only [Bool.not_eq_true', beq_eq_false_iff_ne, ne_eq]
      intro hcontra
      exact h (hcontra ▸ ha ▸ rfl))

theorem kv_point_get_delete (kv : List KvRow) (k0 key : Bytes) :
    kv_point_get (kv_point_delete kv k0) key =
      if k0 = key then none else kv_point_get kv key := by
  by_cases h : k0 = key
  · subst h
    simp only [if_pos rfl]
    exact find?_filter_none kv _ _ (by
      intro a ha
      simp only [Bool.not_eq_true', beq_eq_false_iff_ne, ne_eq] at ha
      simp [ha])
  · simp only [if_neg h]
    exact find?_filter_of_imp kv _ _ (by
      intro a ha
      simp only [beq_iff_eq] at ha
      simp only [Bool.not_eq_true', beq_eq_false_iff_ne, ne_eq]
      intro hcontra
      exact h (hcontra ▸ ha ▸ rfl))

/-! ### Lemmas about mutations -/

theorem mutate_le64_ok (kv : List KvRow) (key : Bytes) (name : String) (op : Value)
    (v : Int) (f : Nat → Nat → Nat) (kv₁ : List KvRow)
    (h : mutate_le64 kv key name op v f = .ok kv₁) :
    ∃ n : Nat, kv₁ = kv_point_set kv ⟨key, toLeBytes8 n, VALUE_ENCODING_LE64, v, -1⟩ := by
  unfold mutate_le64 at h
  split at h
  · rename_i x
    split at h
    · rename_i old hmatch
      exact ⟨_, (Except.ok.injEq _ _ ▸ h).symm⟩
    · exact absurd h (by simp)
    · exact absurd h (by simp)
    · exact ⟨_, (Except.ok.injEq _ _ ▸ h).symm⟩
  · exact absurd h (by simp)

theorem applyMutation_version (v : Int) (kv : List KvRow) (m : KvMutation)
    (kv₁ : List KvRow) (h : applyMutation v kv m = .ok kv₁) :
    ∀ r, kv_point_get kv₁ m.key = some r → r.version = v := by
  intro r hr
  unfold applyMutation at h
  split at h
  · cases h
    rw [kv_point_get_set] at hr
    simp at hr
    subst hr
    rfl
  · cases h
    rw [kv_point_get_delete] at hr
    simp at hr
  all_goals {
    obtain ⟨n, rfl⟩ := mutate_le64_ok _ _ _ _ _ _ _ h
    rw [kv_point_get_set] at hr
    simp at hr
    subst hr
    rfl }

theorem applyMutation_other (v : Int) (kv : List KvRow) (m : KvMutation)
    (kv₁ : List KvRow) (h : applyMutation v kv m = .ok kv₁) (k : Bytes)
    (hk : k ≠ m.key) :
    kv_point_get kv₁ k = kv_point_get kv k := by
  unfold applyMutation at h
  split at h
  · cases h
    rw [kv_point_get_set, if_neg (by simpa using (Ne.symm hk))]
  · cases h
    rw [kv_point_get_delete, if_neg (Ne.symm hk)]
  all_goals {
    obtain ⟨n, rfl⟩ := mutate_le64_ok _ _ _ _ _ _ _ h
    rw [kv_point_get_set, if_neg (by simpa using (Ne.symm hk))] }

theorem applyMutations_nil (v : Int) (kv : List KvRow) :
    applyMutations v kv [] = .ok kv := rfl

theorem applyMutations_cons (v : Int) (kv : List KvRow) (m : KvMutation)
    (ms : List KvMutation) (kv' : List KvRow) :
    applyMutations v kv (m :: ms) = .ok kv' ↔
      ∃ kv₁, applyMutation v kv m = .ok kv₁ ∧ applyMutations v kv₁ ms = .ok kv' := by
  simp only [applyMutations, List.foldlM_cons]
  cases h : applyMutation v kv m with
  | error e =>
    constructor
    · intro hc
      rw [show (Except.error e >>= fun b => List.foldlM (fun acc m => applyMutation v acc m) b ms) = Except.error e from rfl] at hc
      cases hc
    · rintro ⟨kv₁, h₁, _⟩
      cases h₁
  | ok kv₁ =>
    constructor
    · intro hc
      exact ⟨kv₁, rfl, hc⟩
    · rintro ⟨kv₂, h₁, h₂⟩
      cases h₁
      exact h₂

theorem applyMutations_preserve (v : Int) (ms : List KvMutation) :
    ∀ (kv kv' : List KvRow) (k : Bytes),
      (∀ r, kv_point_get kv k = some r → r.version = v) →
      applyMutations v kv ms = .ok kv' →
      ∀ r, kv_point_get kv' k = some r → r.version = v := by
  induction ms with
  | nil =>
    intro kv kv' k hP h
    cases h
    exact hP
  | cons m ms ih =>
    intro kv kv' k hP h
    obtain ⟨kv₁, h₁, h₂⟩ := (applyMutations_cons v kv m ms kv').1 h
    refine ih kv₁ kv' k ?_ h₂
    by_cases hk : k = m.key
    · subst hk
      exact applyMutation_version v kv m kv₁ h₁
    · rw [applyMutation_other v kv m kv₁ h₁ k hk]
      exact hP

theorem applyMutations_touched (v : Int) (ms : List KvMutation) :
    ∀ (kv kv' : List KvRow) (m : KvMutation),
      m ∈ ms → applyMutations v kv ms = .ok kv' →
      ∀ r, kv_point_get kv' m.key = some r → r.version = v := by
  induction ms with
  | nil =>
    intro kv kv' m hm
    cases hm
  | cons m₀ ms ih =>
    intro kv kv' m hm h
    obtain ⟨kv₁, h₁, h₂⟩ := (applyMutations_cons v kv m₀ ms kv').1 h
    rcases List.mem_cons.1 hm with rfl | hm'
    · exact applyMutations_preserve v ms kv₁ kv' m.key
        (applyMutation_version v kv m kv₁ h₁) h₂
    · exact ih kv₁ kv' m hm' h₂

theorem enqueueRows_mem (now : Nat) (freshIds : Nat → String) (es : List Enqueue) :
    ∀ (i : Nat) (e : Enqueue), e ∈ es →
      ∃ q ∈ enqueueRows now freshIds i es,
        q.ts = now + e.delay_ms ∧ q.data = e.payload ∧
        q.keys_if_undelivered = e.keys_if_undelivered ∧
        q.backoff_schedule = some (e.backoff_schedule.getD DEFAULT_BACKOFF_SCHEDULE) := by
  induction es with
  | nil =>
    intro i e he
    cases he
  | cons e₀ es ih =>
    intro i e he
    rcases List.mem_cons.1 he with rfl | he'
    · exact ⟨_, List.mem_cons_self _ _, rfl, rfl, rfl, rfl⟩
    · obtain ⟨q, hq, hprops⟩ := ih (i + 1) e he'
      exact ⟨q, List.mem_cons_of_mem _ hq, hprops⟩

/-! ### Claim C1 -/

/-- Claim C1: for every atomic write whose checks all hold (each check's
expected versionstamp equals the row's current versionstamp, absence
compared as `none`) and whose mutations apply, the write commits: the
result carries the versionstamp of the incremented data version, every
mutated key is observable only at that versionstamp, and every enqueue is
observable in the queue at `now + delay_ms`. For every atomic write in
which some check mismatches, `atomic_write` returns `none` and the state —
mutations, queue, and data version — is unchanged. -/
theorem claim_C1 (st : DbState) (write : AtomicWrite) (now : Nat)
    (freshIds : Nat → String) :
    ((∀ c ∈ write.checks, current_versionstamp st.kv c.key = c.versionstamp) →
      ∀ kv', applyMutations (st.data_version + 1) st.kv write.mutations = .ok kv' →
        ∃ st', atomic_write st write now freshIds =
            .ok (st', some (version_to_versionstamp (st.data_version + 1))) ∧
          st'.data_version = st.data_version + 1 ∧
          st'.kv = kv' ∧
          (∀ m ∈ write.mutations, ∀ r, kv_point_get st'.kv m.key = some r →
            r.version = st.data_version + 1) ∧
          (∀ e ∈ write.enqueues, ∃ q ∈ st'.queue,
            q.ts = now + e.delay_ms ∧ q.data = e.payload ∧
            q.keys_if_undelivered = e.keys_if_undelivered)) ∧
    ((∃ c ∈ write.checks, current_versionstamp st.kv c.key ≠ c.versionstamp) →
      atomic_write st write now freshIds = .ok (st, none)) := by
  constructor
  · intro hchecks kv' hmut
    have hall : write.checks.all
        (fun c => current_versionstamp st.kv c.key == c.versionstamp) = true := by
      rw [List.all_eq_true]
      intro c hc
      exact beq_iff_eq.mpr (hchecks c hc)
    refine ⟨{ data_version := st.data_version + 1, kv := kv',
              queue := st.queue ++ enqueueRows now freshIds 0 write.enqueues,
              queue_running := st.queue_running }, ?_, rfl, rfl, ?_, ?_⟩
    · simp only [atomic_write, hall, if_true, hmut]
    · intro m hm r hr
      exact applyMutations_touched _ _ _ _ _ hm hmut r hr
    · intro e he
      obtain ⟨q, hq, h1, h2, h3, _⟩ :=
        enqueueRows_mem now freshIds write.enqueues 0 e he
      exact ⟨q, List.mem_append_right _ hq, h1, h2, h3⟩
  · rintro ⟨c, hc, hne⟩
    have hall : write.checks.all
        (fun c => current_versionstamp st.kv c.key == c.versionstamp) = false := by
      rw [List.all_eq_false]
      exact ⟨c, hc, by simpa using hne⟩
    simp [atomic_write, hall]

/-- Witness for claim C1 at a concrete database: a passing check commits
and returns the next versionstamp; a failing check (expecting absence of a
present row) returns `none` with the state unchanged. -/
theorem claim_C1_witness :
    (∃ st', atomic_write ⟨3, [⟨[1], [7], 3, 3, -1⟩], [], []⟩
        ⟨[⟨[1], some (version_to_versionstamp 3)⟩],
         [⟨[2], .set (.bytes [9]), none⟩], [⟨[5], 20, [], none⟩]⟩ 100 (fun _ => "id") =
        .ok (st', some (version_to_versionstamp (3 + 1))) ∧
      st'.data_version = 3 + 1) ∧
    atomic_write ⟨3, [⟨[1], [7], 3, 3, -1⟩], [], []⟩
        ⟨[⟨[1], none⟩], [⟨[2], .set (.bytes [9]), none⟩], []⟩ 100 (fun _ => "id") =
      .ok (⟨3, [⟨[1], [7], 3, 3, -1⟩], [], []⟩, none) := by
  constructor
  · obtain ⟨st', h1, h2, -, -, -⟩ :=
      (claim_C1 ⟨3, [⟨[1], [7], 3, 3, -1⟩], [], []⟩
        ⟨[⟨[1], some (version_to_versionstamp 3)⟩],
         [⟨[2], .set (.bytes [9]), none⟩], [⟨[5], 20, [], none⟩]⟩ 100 (fun _ => "id")).1
        (by decide) [⟨[2], [9], 3, 4, -1⟩, ⟨[1], [7], 3, 3, -1⟩] (by rfl)
    exact ⟨st', h1, h2⟩
  · exact (claim_C1 ⟨3, [⟨[1], [7], 3, 3, -1⟩], [], []⟩
      ⟨[⟨[1], none⟩], [⟨[2], .set (.bytes [9]), none⟩], []⟩ 100 (fun _ => "id")).2
      ⟨⟨[1], none⟩, List.mem_singleton.mpr rfl, by decide⟩

/-! ### Claim C2 -/

theorem beBytes_length (w : Nat) : ∀ n, (beBytes w n).length = w := by
  induction w with
  | zero => intro n; rfl
  | succ w ih => intro n; simp [beBytes, ih]

theorem beBytes_lt (w : Nat) : ∀ n m : Nat, n < m → m < 256 ^ w →
    bytesLt (beBytes w n) (beBytes w m) = true := by
  induction w with
  | zero =>
    intro n m h hm
    simp only [pow_zero, Nat.lt_one_iff] at hm
    omega
  | succ w ih =>
    intro n m h hm
    simp only [beBytes, bytesLt]
    rcases Nat.lt_or_ge (n / 256 ^ w) (m / 256 ^ w) with hlt | hge
    · simp [hlt]
    · have heq : n / 256 ^ w = m / 256 ^ w :=
        Nat.le_antisymm (Nat.div_le_div_right (Nat.le_of_lt h)) hge
      have hmod : n % 256 ^ w < m % 256 ^ w := by
        have h1 := Nat.div_add_mod n (256 ^ w)
        have h2 := Nat.div_add_mod m (256 ^ w)
        rw [heq] at h1
        omega
      have hrec := ih _ _ hmod (Nat.mod_lt _ (Nat.pow_pos (by norm_num)))
      simp [heq, hrec]

theorem bytesLt_append (s t : Bytes) : ∀ xs ys : Bytes, xs.length = ys.length →
    bytesLt xs ys = true → bytesLt (xs ++ s) (ys ++ t) = true := by
  intro xs
  induction xs with
  | nil =>
    intro ys hlen h
    cases ys with
    | nil => simp [bytesLt] at h
    | cons y ys => simp at hlen
  | cons x xs ih =>
    intro ys hlen h
    cases ys with
    | nil => simp at hlen
    | cons y ys =>
      simp only [bytesLt] at h
      simp only [List.cons_append, bytesLt]
      by_cases hxy : x < y
      · simp [hxy]
      · simp only [decide_eq_true_eq, hxy, decide_False, Bool.false_or,
          Bool.and_eq_true, beq_iff_eq] at h ⊢
        simp only [List.length_cons, Nat.add_right_cancel_iff] at hlen
        exact ⟨h.1, ih ys hlen h.2⟩

theorem version_to_versionstamp_lt (a b : Int) (h0 : 0 ≤ a) (hab : a < b)
    (hb : b < 2 ^ 63) :
    bytesLt (version_to_versionstamp a) (version_to_versionstamp b) = true := by
  have ha' : a % (2 : Int) ^ 64 = a := Int.emod_eq_of_lt h0 (by omega)
  have hb' : b % (2 : Int) ^ 64 = b := Int.emod_eq_of_lt (by omega) (by omega)
  unfold version_to_versionstamp
  rw [ha', hb']
  refine bytesLt_append _ _ _ _ (by rw [beBytes_length, beBytes_length]) ?_
  refine beBytes_lt 8 _ _ (by omega) ?_
  have : (256 : Nat) ^ 8 = 2 ^ 64 := by norm_num
  rw [this]
  omega

theorem atomic_write_ok_some (st st' : DbState) (w : AtomicWrite) (now : Nat)
    (freshIds : Nat → String) (vs : Bytes)
    (h : atomic_write st w now freshIds = .ok (st', some vs)) :
    st'.data_version = st.data_version + 1 ∧
      vs = version_to_versionstamp (st.data_version + 1) := by
  unfold atomic_write at h
  split at h
  · split at h
    · exact absurd h (by simp)
    · rw [Except.ok.injEq, Prod.mk.injEq] at h
      obtain ⟨h1, h2⟩ := h
      rw [← h1]
      simp only [Option.some.injEq] at h2
      exact ⟨rfl, h2.symm⟩
  · rw [Except.ok.injEq, Prod.mk.injEq] at h
    exact absurd h.2 (by simp)

theorem atomic_write_ok_none (st st' : DbState) (w : AtomicWrite) (now : Nat)
    (freshIds : Nat → String)
    (h : atomic_write st w now freshIds = .ok (st', none)) :
    st' = st := by
  unfold atomic_write at h
  split at h
  · split at h
    · exact absurd h (by simp)
    · rw [Except.ok.injEq, Prod.mk.injEq] at h
      exact absurd h.2 (by simp)
  · rw [Except.ok.injEq, Prod.mk.injEq] at h
    exact h.1.symm

theorem runWrites_data_version (ws : List (AtomicWrite × Nat × (Nat → String))) :
    ∀ st : DbState, (runWrites st ws).1.data_version =
      st.data_version + ((runWrites st ws).2.length : Int) := by
  induction ws with
  | nil => intro st; simp [runWrites]
  | cons p ws ih =>
    intro st
    obtain ⟨w, now, freshIds⟩ := p
    cases h : atomic_write st w now freshIds with
    | error e =>
      simp only [runWrites, h]
      exact ih st
    | ok r =>
      obtain ⟨st', vsOpt⟩ := r
      cases vsOpt with
      | none =>
        simp only [runWrites, h]
        rw [atomic_write_ok_none st st' w now freshIds h]
        exact ih st
      | some vs =>
        simp only [runWrites, h, List.length_cons]
        have hd := (atomic_write_ok_some st st' w now freshIds vs h).1
        rw [ih st', hd]
        push_cast
        ring

theorem runWrites_elem (ws : List (AtomicWrite × Nat × (Nat → String))) :
    ∀ (st : DbState) (b : Bytes), b ∈ (runWrites st ws).2 →
      ∃ v : Int, st.data_version < v ∧ v ≤ st.data_version + (ws.length : Int) ∧
        b = version_to_versionstamp v := by
  induction ws with
  | nil =>
    intro st b hb
    simp [runWrites] at hb
  | cons p ws ih =>
    intro st b hb
    obtain ⟨w, now, freshIds⟩ := p
    cases h : atomic_write st w now freshIds with
    | error e =>
      rw [runWrites, h] at hb
      obtain ⟨v, h1, h2, h3⟩ := ih st b hb
      refine ⟨v, h1, ?_, h3⟩
      simp only [List.length_cons]
      push_cast
      omega
    | ok r =>
      obtain ⟨st', vsOpt⟩ := r
      cases vsOpt with
      | none =>
        rw [runWrites, h] at hb
        rw [atomic_write_ok_none st st' w now freshIds h] at hb
        obtain ⟨v, h1, h2, h3⟩ := ih st b hb
        refine ⟨v, h1, ?_, h3⟩
        simp only [List.length_cons]
        push_cast
        omega
      | some vs =>
        rw [runWrites, h] at hb
        obtain ⟨hd, hvs⟩ := atomic_write_ok_some st st' w now freshIds vs h
        rcases List.mem_cons.1 hb with rfl | hb'
        · refine ⟨st.data_version + 1, by omega, ?_, hvs⟩
          simp only [List.length_cons]
          push_cast
          omega
        · obtain ⟨v, h1, h2, h3⟩ := ih st' b hb'
          rw [hd] at h1 h2
          refine ⟨v, by omega, ?_, h3⟩
          simp only [List.length_cons]
          push_cast at h2 ⊢
          omega

theorem runWrites_pairwise (ws : List (AtomicWrite × Nat × (Nat → String))) :
    ∀ st : DbState, 0 ≤ st.data_version →
      st.data_version + (ws.length : Int) < 2 ^ 63 →
      List.Pairwise (fun a b => bytesLt a b = true) (runWrites st ws).2 := by
  induction ws with
  | nil =>
    intro st _ _
    simp [runWrites]
  | cons p ws ih =>
    intro st h0 hb
    obtain ⟨w, now, freshIds⟩ := p
    simp only [List.length_cons] at hb
    push_cast at hb
    cases h : atomic_write st w now freshIds with
    | error e =>
      rw [runWrites, h]
      exact ih st h0 (by omega)
    | ok r =>
      obtain ⟨st', vsOpt⟩ := r
      cases vsOpt with
      | none =>
        rw [runWrites, h, atomic_write_ok_none st st' w now freshIds h]
        exact ih st h0 (by omega)
      | some vs =>
        rw [runWrites, h]
        obtain ⟨hd, hvs⟩ := atomic_write_ok_some st st' w now freshIds vs h
        refine List.Pairwise.cons ?_ (ih st' (by omega) (by omega))
        intro b hb'
        obtain ⟨v, h1, h2, h3⟩ := runWrites_elem ws st' b hb'
        rw [hd] at h1 h2
        rw [hvs, h3]
        exact version_to_versionstamp_lt _ _ (by omega) h1 (by omega)

/-- Claim C2: over any sequence of atomic writes against one database, the
versionstamps returned by the committing writes are strictly increasing in
byte order, and the data-version counter advances by exactly one per
committing write — the final counter equals the initial counter plus the
number of commits — including for writes with no mutations and no
enqueues. (The version column is an i64 starting at 0, whence the bound
hypotheses.) -/
theorem claim_C2 (st : DbState) (ws : List (AtomicWrite × Nat × (Nat → String)))
    (h0 : 0 ≤ st.data_version)
    (hb : st.data_version + (ws.length : Int) < 2 ^ 63) :
    List.Pairwise (fun a b => bytesLt a b = true) (runWrites st ws).2 ∧
      (runWrites st ws).1.data_version =
        st.data_version + ((runWrites st ws).2.length : Int) :=
  ⟨runWrites_pairwise ws st h0 hb, runWrites_data_version ws st⟩

/-- Witness for claim C2: three writes — two committing empty writes and a
failing check — yield strictly increasing versionstamps and a final
counter advanced by exactly the number of commits. -/
theorem claim_C2_witness :
    List.Pairwise (fun a b => bytesLt a b = true)
      (runWrites ⟨0, [], [], []⟩
        [(⟨[], [], []⟩, 5, fun _ => "a"), (⟨[], [], []⟩, 6, fun _ => "b"),
         (⟨[⟨[9], some (version_to_versionstamp 1)⟩], [], []⟩, 7, fun _ => "c")]).2 ∧
      (runWrites ⟨0, [], [], []⟩
        [(⟨[], [], []⟩, 5, fun _ => "a"), (⟨[], [], []⟩, 6, fun _ => "b"),
         (⟨[⟨[9], some (version_to_versionstamp 1)⟩], [], []⟩, 7, fun _ => "c")]).1.data_version =
        0 + ((runWrites ⟨0, [], [], []⟩
          [(⟨[], [], []⟩, 5, fun _ => "a"), (⟨[], [], []⟩, 6, fun _ => "b"),
           (⟨[⟨[9], some (version_to_versionstamp 1)⟩], [], []⟩, 7, fun _ => "c")]).2.length : Int) :=
  claim_C2 ⟨0, [], [], []⟩
    [(⟨[], [], []⟩, 5, fun _ => "a"), (⟨[], [], []⟩, 6, fun _ => "b"),
     (⟨[⟨[9], some (version_to_versionstamp 1)⟩], [], []⟩, 7, fun _ => "c")]
    (by norm_num) (by norm_num)

/-! ### Claim C3 -/

theorem mem_insertRowSorted (r x : KvRow) :
    ∀ l : List KvRow, x ∈ insertRowSorted r l ↔ x = r ∨ x ∈ l := by
  intro l
  induction l with
  | nil => simp [insertRowSorted]
  | cons a l ih =>
    by_cases h : bytesLt r.k a.k = true
    · simp [insertRowSorted, h]
    · simp only [insertRowSorted, if_neg h, List.mem_cons, ih]
      tauto

theorem mem_sortRowsByKey (x : KvRow) :
    ∀ l : List KvRow, x ∈ sortRowsByKey l ↔ x ∈ l := by
  intro l
  induction l with
  | nil => simp [sortRowsByKey]
  | cons a l ih =>
    simp [sortRowsByKey, mem_insertRowSorted, ih]

theorem kv_range_scan_subset (kv : List KvRow) (start end_ : Bytes) (limit : Nat)
    (reverse : Bool) :
    ∀ r ∈ kv_range_scan kv start end_ limit reverse, r ∈ kv := by
  intro r hr
  unfold kv_range_scan at hr
  have hr' := List.take_subset _ _ hr
  have hr'' : r ∈ sortRowsByKey
      (kv.filter fun r => !bytesLt r.k start && bytesLt r.k end_) := by
    by_cases h : reverse = true
    · rw [h] at hr'
      simpa using List.mem_reverse.1 (by simpa using hr')
    · simp only [Bool.not_eq_true] at h
      rw [h] at hr'
      simpa using hr'
  exact List.mem_of_mem_filter ((mem_sortRowsByKey r _).1 hr'')

theorem snapshot_read_entry (st : DbState) (reqs : List ReadRange) :
    ∀ out ∈ snapshot_read st reqs, ∀ e ∈ out,
      ∃ r ∈ st.kv, e.key = r.k ∧ e.versionstamp = version_to_versionstamp r.version ∧
        e.value = decode_value r.v r.v_encoding := by
  intro out hout e he
  obtain ⟨req, hreq, rfl⟩ := List.mem_map.1 hout
  obtain ⟨r, hr, rfl⟩ := List.mem_map.1 he
  exact ⟨r, kv_range_scan_subset _ _ _ _ _ r hr, rfl, rfl, rfl⟩

/-- Claim C3 counterexample: at `now = 100`, a stored row with
`expiration_ms = 5` (so `0 ≤ 5 ≤ 100`, expired but not yet swept) is
returned by `snapshot_read` — the range-scan statement carries no
expiration filter, contradicting the claim that such a row is never
included. -/
theorem claim_C3_counterexample :
    (0 : Int) ≤ 5 ∧ (5 : Int) ≤ 100 ∧
    snapshot_read ⟨1, [⟨[1], [9], 3, 1, 5⟩], [], []⟩ [⟨[], [255], 1, false⟩] =
      [[⟨[1], some (.bytes [9]), version_to_versionstamp 1⟩]] :=
  ⟨by norm_num, by norm_num, by rfl⟩

/-- Claim C3 (amended): `snapshot_read` itself does not filter expired
rows; non-visibility of a row with `0 ≤ expiration_ms ≤ now` holds only
once the expiration watcher has swept. Concretely: a sweep at `now`
deletes exactly the expired rows, and every entry of a `snapshot_read`
performed after the sweep is backed by a row that was not expired at
`now`. -/
theorem claim_C3 (st : DbState) (now : Nat) :
    (∀ r : KvRow, r ∈ (watch_expiration_sweep now st).kv ↔
      r ∈ st.kv ∧ ¬(0 ≤ r.expiration_ms ∧ r.expiration_ms ≤ (now : Int))) ∧
    (∀ (reqs : List ReadRange) (out : List KvEntry) (e : KvEntry),
      out ∈ snapshot_read (watch_expiration_sweep now st) reqs → e ∈ out →
      ∃ r, r ∈ st.kv ∧ e.key = r.k ∧
        e.versionstamp = version_to_versionstamp r.version ∧
        ¬(0 ≤ r.expiration_ms ∧ r.expiration_ms ≤ (now : Int))) := by
  constructor
  · intro r
    simp only [watch_expiration_sweep, List.mem_filter, decide_eq_true_eq]
  · intro reqs out e hout he
    obtain ⟨r, hr, h1, h2, _⟩ :=
      snapshot_read_entry (watch_expiration_sweep now st) reqs out hout e he
    simp only [watch_expiration_sweep, List.mem_filter, decide_eq_true_eq] at hr
    exact ⟨r, hr.1, h1, h2, hr.2⟩

/-- Witness for claim C3 (amended): after a sweep at `now = 100`, the
surviving entry of a snapshot read is backed by the unexpired row. -/
theorem claim_C3_witness :
    ∃ r, r ∈ [(⟨[1], [9], 3, 1, 5⟩ : KvRow), ⟨[2], [7], 3, 1, -1⟩] ∧
      ([2] : Bytes) = r.k ∧
      version_to_versionstamp 1 = version_to_versionstamp r.version ∧
      ¬(0 ≤ r.expiration_ms ∧ r.expiration_ms ≤ (100 : Int)) :=
  (claim_C3 ⟨1, [⟨[1], [9], 3, 1, 5⟩, ⟨[2], [7], 3, 1, -1⟩], [], []⟩ 100).2
    [⟨[], [255], 10, false⟩]
    [⟨[2], some (.bytes [7]), version_to_versionstamp 1⟩]
    ⟨[2], some (.bytes [7]), version_to_versionstamp 1⟩
    (by decide) (by decide)

/-! ### Claim C4 -/

theorem fromLeBytes8_toLeBytes8 (m : Nat) :
    fromLeBytes8 (toLeBytes8 m) = m % 2 ^ 64 := by
  simp only [fromLeBytes8, toLeBytes8, List.foldr]
  omega

theorem fromLeBytes8_lt (v : Bytes) (h : ∀ b ∈ v, b < 256) :
    fromLeBytes8 v < 256 ^ v.length := by
  induction v with
  | nil => simp [fromLeBytes8]
  | cons x xs ih =>
    have h1 : fromLeBytes8 (x :: xs) = x + 256 * fromLeBytes8 xs := rfl
    have h2 : fromLeBytes8 xs < 256 ^ xs.length :=
      ih fun b hb => h b (List.mem_cons_of_mem _ hb)
    have h3 : x < 256 := h x (List.mem_cons_self _ _)
    have h4 : (256 : Nat) ^ (x :: xs).length = 256 * 256 ^ xs.length := by
      rw [List.length_cons, pow_succ]
      ring
    rw [h1, h4]
    omega

theorem decode_value_u64 (b : Bytes) (enc : Int) (v : Nat)
    (h : decode_value b enc = some (.u64 v)) :
    b.length = 8 ∧ v = fromLeBytes8 b := by
  unfold decode_value at h
  split_ifs at h with h1 h2 h3 h4 <;> simp_all

theorem decode_toLeBytes8 (y : Nat) (hy : y < 2 ^ 64) :
    decode_value (toLeBytes8 y) VALUE_ENCODING_LE64 = some (.u64 y) := by
  simp only [decode_value, VALUE_ENCODING_LE64, VALUE_ENCODING_V8,
    VALUE_ENCODING_BYTES]
  norm_num
  refine ⟨rfl, ?_⟩
  rw [fromLeBytes8_toLeBytes8]
  exact Nat.mod_eq_of_lt hy

/-- Claim C4: for `Sum`, `Min`, `Max` mutations with operand `U64 x`: on a
missing key the operand becomes the stored value; on a key holding
`U64 v` the stored value becomes `U64 (combine v x)` where `Sum` wraps
modulo `2 ^ 64`, `Min` takes the minimum and `Max` the maximum; a non-U64
stored value or a non-U64 operand yields the typed error, and any error
leaves the op-layer state unchanged (the transaction rolls back). -/
theorem claim_C4 (kv : List KvRow) (key : Bytes) (x : Nat) (version : Int)
    (expire : Option Nat) :
    (kv_point_get kv key = none → x < 2 ^ 64 →
      ∀ kind ∈ [MutationKind.sum (.u64 x), .min (.u64 x), .max (.u64 x)],
        applyMutation version kv ⟨key, kind, expire⟩ =
          .ok (kv_point_set kv ⟨key, toLeBytes8 x, VALUE_ENCODING_LE64, version, -1⟩) ∧
        decode_value (toLeBytes8 x) VALUE_ENCODING_LE64 = some (.u64 x)) ∧
    (∀ r v, kv_point_get kv key = some r →
      decode_value r.v r.v_encoding = some (.u64 v) →
      applyMutation version kv ⟨key, .sum (.u64 x), expire⟩ =
        .ok (kv_point_set kv
          ⟨key, toLeBytes8 ((v + x) % 2 ^ 64), VALUE_ENCODING_LE64, version, -1⟩) ∧
      applyMutation version kv ⟨key, .min (.u64 x), expire⟩ =
        .ok (kv_point_set kv
          ⟨key, toLeBytes8 (Nat.min v x), VALUE_ENCODING_LE64, version, -1⟩) ∧
      applyMutation version kv ⟨key, .max (.u64 x), expire⟩ =
        .ok (kv_point_set kv
          ⟨key, toLeBytes8 (Nat.max v x), VALUE_ENCODING_LE64, version, -1⟩) ∧
      ((∀ b ∈ r.v, b < 256) → x < 2 ^ 64 →
        decode_value (toLeBytes8 ((v + x) % 2 ^ 64)) VALUE_ENCODING_LE64 =
          some (.u64 ((v + x) % 2 ^ 64)) ∧
        decode_value (toLeBytes8 (Nat.min v x)) VALUE_ENCODING_LE64 =
          some (.u64 (Nat.min v x)) ∧
        decode_value (toLeBytes8 (Nat.max v x)) VALUE_ENCODING_LE64 =
          some (.u64 (Nat.max v x)))) ∧
    (∀ r w, kv_point_get kv key = some r →
      decode_value r.v r.v_encoding = some w → (∀ n, w ≠ .u64 n) →
      applyMutation version kv ⟨key, .sum (.u64 x), expire⟩ =
        .error "Failed to perform 'sum' mutation on a non-U64 value in the database" ∧
      applyMutation version kv ⟨key, .min (.u64 x), expire⟩ =
        .error "Failed to perform 'min' mutation on a non-U64 value in the database" ∧
      applyMutation version kv ⟨key, .max (.u64 x), expire⟩ =
        .error "Failed to perform 'max' mutation on a non-U64 value in the database") ∧
    (∀ op : Value, (∀ n, op ≠ .u64 n) →
      applyMutation version kv ⟨key, .sum op, expire⟩ =
        .error "Failed to perform 'sum' mutation on a non-U64 operand" ∧
      applyMutation version kv ⟨key, .min op, expire⟩ =
        .error "Failed to perform 'min' mutation on a non-U64 operand" ∧
      applyMutation version kv ⟨key, .max op, expire⟩ =
        .error "Failed to perform 'max' mutation on a non-U64 operand") ∧
    (∀ (st : DbState) (checks : List KvCheck) (muts : List KvMutation)
        (enqs : List Enqueue) (now : Nat) (freshIds : Nat → String) (e : String),
      (op_kv_atomic_write st checks muts enqs now freshIds).2 = .error e →
      (op_kv_atomic_write st checks muts enqs now freshIds).1 = st) := by
  refine ⟨?_, ?_, ?_, ?_, ?_⟩
  · intro hget hx kind hkind
    have hdec := decode_toLeBytes8 x hx
    simp only [List.mem_cons, List.mem_singleton, List.not_mem_nil, or_false] at hkind
    rcases hkind with rfl | rfl | rfl
    · exact ⟨by simp [applyMutation, mutate_le64, hget], hdec⟩
    · exact ⟨by simp [applyMutation, mutate_le64, hget], hdec⟩
    · exact ⟨by simp [applyMutation, mutate_le64, hget], hdec⟩
  · intro r v hget hdec
    have hlen : r.v.length = 8 := (decode_value_u64 _ _ _ hdec).1
    have hv : v = fromLeBytes8 r.v := (decode_value_u64 _ _ _ hdec).2
    refine ⟨by simp [applyMutation, mutate_le64, hget, hdec],
            by simp [applyMutation, mutate_le64, hget, hdec],
            by simp [applyMutation, mutate_le64, hget, hdec], ?_⟩
    intro hwf hx
    have hvlt : v < 2 ^ 64 := by
      rw [hv]
      have := fromLeBytes8_lt r.v hwf
      rw [hlen] at this
      norm_num at this
      exact this
    exact ⟨decode_toLeBytes8 _ (Nat.mod_lt _ (by norm_num)),
           decode_toLeBytes8 _ (lt_of_le_of_lt (Nat.min_le_left v x) hvlt),
           decode_toLeBytes8 _ (Nat.max_lt.mpr ⟨hvlt, hx⟩)⟩
  · intro r w hget hdec hw
    cases w with
    | u64 n => exact absurd rfl (hw n)
    | v8 d =>
      exact ⟨by simp [applyMutation, mutate_le64, hget, hdec],
             by simp [applyMutation, mutate_le64, hget, hdec],
             by simp [applyMutation, mutate_le64, hget, hdec]⟩
    | bytes d =>
      exact ⟨by simp [applyMutation, mutate_le64, hget, hdec],
             by simp [applyMutation, mutate_le64, hget, hdec],
             by simp [applyMutation, mutate_le64, hget, hdec]⟩
  · intro op hop
    cases op with
    | u64 n => exact absurd rfl (hop n)
    | v8 d =>
      exact ⟨by simp [applyMutation, mutate_le64],
             by simp [applyMutation, mutate_le64],
             by simp [applyMutation, mutate_le64]⟩
    | bytes d =>
      exact ⟨by simp [applyMutation, mutate_le64],
             by simp [applyMutation, mutate_le64],
             by simp [applyMutation, mutate_le64]⟩
  · intro st checks muts enqs now freshIds e h
    unfold op_kv_atomic_write at h ⊢
    split at h
    · rfl
    · split at h
      · rfl
      · simp at h

/-- Witness for claim C4 at concrete inputs: a `Sum` on a missing key
stores the operand; a wrapping `Sum` on a stored `U64`; `Min`; a typed
error on a non-U64 stored value and on a non-U64 operand; and an erroring
op leaves the state unchanged. -/
theorem claim_C4_witness :
    (applyMutation 1 [] ⟨[1], .sum (.u64 7), none⟩ =
      .ok (kv_point_set [] ⟨[1], toLeBytes8 7, VALUE_ENCODING_LE64, 1, -1⟩)) ∧
    (applyMutation 2 [⟨[1], [5, 0, 0, 0, 0, 0, 0, 0], 2, 1, -1⟩]
        ⟨[1], .sum (.u64 7), none⟩ =
      .ok (kv_point_set [⟨[1], [5, 0, 0, 0, 0, 0, 0, 0], 2, 1, -1⟩]
        ⟨[1], toLeBytes8 ((5 + 7) % 2 ^ 64), VALUE_ENCODING_LE64, 2, -1⟩)) ∧
    (applyMutation 2 [⟨[1], [5, 0, 0, 0, 0, 0, 0, 0], 2, 1, -1⟩]
        ⟨[1], .min (.u64 7), none⟩ =
      .ok (kv_point_set [⟨[1], [5, 0, 0, 0, 0, 0, 0, 0], 2, 1, -1⟩]
        ⟨[1], toLeBytes8 (Nat.min 5 7), VALUE_ENCODING_LE64, 2, -1⟩)) ∧
    (applyMutation 2 [⟨[1], [9], 1, 1, -1⟩] ⟨[1], .max (.u64 7), none⟩ =
      .error "Failed to perform 'max' mutation on a non-U64 value in the database") ∧
    (applyMutation 2 [] ⟨[1], .sum (.v8 [9]), none⟩ =
      .error "Failed to perform 'sum' mutation on a non-U64 operand") ∧
    ((op_kv_atomic_write ⟨0, [], [], []⟩ []
        [⟨[1], .sum (.v8 [9]), none⟩] [] 0 (fun _ => "id")).1 = ⟨0, [], [], []⟩) := by
  refine ⟨?_, ?_, ?_, ?_, ?_, ?_⟩
  · exact ((claim_C4 [] [1] 7 1 none).1 (by rfl) (by norm_num)
      (.sum (.u64 7)) (by simp)).1
  · exact ((claim_C4 [⟨[1], [5, 0, 0, 0, 0, 0, 0, 0], 2, 1, -1⟩] [1] 7 2 none).2.1
      ⟨[1], [5, 0, 0, 0, 0, 0, 0, 0], 2, 1, -1⟩ 5 (by rfl) (by rfl)).1
  · exact ((claim_C4 [⟨[1], [5, 0, 0, 0, 0, 0, 0, 0], 2, 1, -1⟩] [1] 7 2 none).2.1
      ⟨[1], [5, 0, 0, 0, 0, 0, 0, 0], 2, 1, -1⟩ 5 (by rfl) (by rfl)).2.1
  · exact ((claim_C4 [⟨[1], [9], 1, 1, -1⟩] [1] 7 2 none).2.2.1
      ⟨[1], [9], 1, 1, -1⟩ (.v8 [9]) (by rfl) (by rfl) (by intro n h; cases h)).2.2
  · exact ((claim_C4 [] [1] 7 2 none).2.2.2.1 (.v8 [9])
      (by intro n h; cases h)).1
  · exact (claim_C4 [] [1] 7 2 none).2.2.2.2 ⟨0, [], [], []⟩ []
      [⟨[1], .sum (.v8 [9]), none⟩] [] 0 (fun _ => "id")
      "Failed to perform 'sum' mutation on a non-U64 operand" (by rfl)

/-! ### Claim C5 -/

/-- Claim C5 counterexample: a `Sum` mutation carrying
`expire_in_ms = 1000` (converted at `now = 0` to `expire_at = 1000`)
commits a row whose `expiration_ms` is `-1`, not `now + expire_in_ms`:
`mutate_le64` hardcodes `-1` for the numeric mutations. -/
theorem claim_C5_counterexample :
    atomic_write ⟨0, [], [], []⟩
        ⟨[], [kvMutationFromV8 [1] (.sum (.u64 5)) (some 1000) 0], []⟩ 0
        (fun _ => "id") =
      .ok (⟨1, [⟨[1], toLeBytes8 5, VALUE_ENCODING_LE64, 1, -1⟩], [], []⟩,
           some (version_to_versionstamp 1)) ∧
    (⟨[1], toLeBytes8 5, VALUE_ENCODING_LE64, 1, -1⟩ : KvRow).expiration_ms = -1 ∧
    (-1 : Int) ≠ ((0 + 1000 : Nat) : Int) :=
  ⟨by rfl, rfl, by norm_num⟩

/-- Claim C5 (amended): a `Set` mutation carrying `expire_in_ms` commits
its row with `expiration_ms = now + expire_in_ms` (when representable in
i64) and with `-1` when no `expire_in_ms` is given; the numeric
`Sum`/`Min`/`Max` mutations always commit their row with
`expiration_ms = -1`, even when `expire_in_ms` is provided. -/
theorem claim_C5 (kv : List KvRow) (key : Bytes) (value : Value) (t now : Nat)
    (version : Int) (x : Nat) :
    (now + t ≤ 2 ^ 63 - 1 →
      applyMutation version kv (kvMutationFromV8 key (.set value) (some t) now) =
        .ok (kv_point_set kv ⟨key, (encode_value value).1, (encode_value value).2,
          version, ((now + t : Nat) : Int)⟩)) ∧
    (applyMutation version kv (kvMutationFromV8 key (.set value) none now) =
      .ok (kv_point_set kv ⟨key, (encode_value value).1, (encode_value value).2,
        version, -1⟩)) ∧
    (∀ (expire_in : Option Nat) (kind : MutationKind),
      kind ∈ [MutationKind.sum (.u64 x), .min (.u64 x), .max (.u64 x)] →
      ∀ kv', applyMutation version kv (kvMutationFromV8 key kind expire_in now) = .ok kv' →
        ∀ r, kv_point_get kv' key = some r → r.expiration_ms = -1) := by
  refine ⟨?_, ?_, ?_⟩
  · intro h
    have h' : now + t ≤ 9223372036854775807 := by omega
    simp [applyMutation, kvMutationFromV8, expire_at_to_i64, h']
  · simp [applyMutation, kvMutationFromV8, expire_at_to_i64]
  · intro expire_in kind hkind kv' h r hr
    simp only [List.mem_cons, List.mem_singleton, List.not_mem_nil, or_false] at hkind
    have hmut : ∃ n : Nat, kv' = kv_point_set kv
        ⟨key, toLeBytes8 n, VALUE_ENCODING_LE64, version, -1⟩ := by
      rcases hkind with rfl | rfl | rfl
      · exact mutate_le64_ok _ _ _ _ _ _ _
          (by simpa [applyMutation, kvMutationFromV8] using h)
      · exact mutate_le64_ok _ _ _ _ _ _ _
          (by simpa [applyMutation, kvMutationFromV8] using h)
      · exact mutate_le64_ok _ _ _ _ _ _ _
          (by simpa [applyMutation, kvMutationFromV8] using h)
    obtain ⟨n, rfl⟩ := hmut
    rw [kv_point_get_set, if_pos rfl] at hr
    cases hr
    rfl

/-- Witness for claim C5: a `Set` with `expire_in_ms = 5` at `now = 10`
stores `expiration_ms = 15`, and a `Sum` with an `expire_in_ms` stores
`expiration_ms = -1`. -/
theorem claim_C5_witness :
    (applyMutation 1 [] (kvMutationFromV8 [1] (.set (.v8 [9])) (some 5) 10) =
      .ok (kv_point_set [] ⟨[1], [9], VALUE_ENCODING_V8, 1, (15 : Int)⟩)) ∧
    (⟨[1], toLeBytes8 7, VALUE_ENCODING_LE64, 1, -1⟩ : KvRow).expiration_ms = -1 := by
  constructor
  · exact (claim_C5 [] [1] (.v8 [9]) 5 10 1 0).1 (by norm_num)
  · exact (claim_C5 [] [1] (.v8 [9]) 5 10 1 7).2.2 (some 3) (.sum (.u64 7))
      (by simp)
      (kv_point_set [] ⟨[1], toLeBytes8 7, VALUE_ENCODING_LE64, 1, -1⟩) (by rfl)
      ⟨[1], toLeBytes8 7, VALUE_ENCODING_LE64, 1, -1⟩ (by rfl)

/-! ### Claim C6 -/

/-- The size counted by `check_value_size` (`U64` counts 8 bytes). -/
def valueSizeOf : Value → Nat
  | .u64 _ => 8
  | .v8 d => d.length
  | .bytes d => d.length

theorem exceptMapM_ok_of (f : α → Except String Nat) (g : α → Nat) :
    ∀ l : List α, (∀ x ∈ l, f x = .ok (g x)) → exceptMapM f l = .ok (l.map g) := by
  intro l
  induction l with
  | nil => intro _; rfl
  | cons a l ih =>
    intro h
    have ha := h a (List.mem_cons_self _ _)
    have hl := ih fun x hx => h x (List.mem_cons_of_mem _ hx)
    simp [exceptMapM, ha, hl]

theorem exceptMapM_forall_ok (f : α → Except String Nat) :
    ∀ (l : List α) (ys : List Nat), exceptMapM f l = .ok ys →
      ∀ x ∈ l, ∃ y, f x = .ok y := by
  intro l
  induction l with
  | nil => intro ys _ x hx; cases hx
  | cons a l ih =>
    intro ys h x hx
    unfold exceptMapM at h
    split at h
    · cases h
    · rename_i y hy
      split at h
      · cases h
      · rename_i ys' hys
        rcases List.mem_cons.1 hx with rfl | hx'
        · exact ⟨y, hy⟩
        · exact ih ys' hys x hx'

theorem exceptMapM_values (f : α → Except String Nat) (g : α → Nat)
    (l : List α) (ys : List Nat) (h : exceptMapM f l = .ok ys)
    (hall : ∀ x ∈ l, f x = .ok (g x)) : ys = l.map g := by
  rw [exceptMapM_ok_of f g l hall] at h
  cases h
  rfl

theorem key_check_ok_inv (key : Bytes) (y : Nat)
    (h : (if key.isEmpty then Except.error "key cannot be empty"
          else check_write_key_size key) = .ok y) :
    key ≠ [] ∧ key.length ≤ MAX_WRITE_KEY_SIZE_BYTES ∧ y = key.length := by
  by_cases he : key.isEmpty
  · rw [if_pos he] at h
    exact absurd h (by simp)
  · rw [if_neg he] at h
    unfold check_write_key_size at h
    by_cases hs : key.length > MAX_WRITE_KEY_SIZE_BYTES
    · rw [if_pos hs] at h
      exact absurd h (by simp)
    · rw [if_neg hs] at h
      simp only [Except.ok.injEq] at h
      exact ⟨by simpa [List.isEmpty_iff] using he, Nat.le_of_not_lt hs, h.symm⟩

theorem key_check_ok_of (key : Bytes) (hne : key ≠ [])
    (hlen : key.length ≤ MAX_WRITE_KEY_SIZE_BYTES) :
    (if key.isEmpty then Except.error "key cannot be empty"
     else check_write_key_size key) = .ok key.length := by
  rw [if_neg (by simpa [List.isEmpty_iff] using hne)]
  unfold check_write_key_size
  rw [if_neg (Nat.not_lt.mpr hlen)]

theorem check_value_size_ok_inv (v : Value) (y : Nat)
    (h : check_value_size v = .ok y) :
    valueSizeOf v ≤ MAX_VALUE_SIZE_BYTES ∧ y = valueSizeOf v := by
  cases v with
  | u64 n =>
    simp only [check_value_size, Except.ok.injEq] at h
    exact ⟨by norm_num [valueSizeOf, MAX_VALUE_SIZE_BYTES], h.symm⟩
  | v8 d =>
    simp only [check_value_size] at h
    by_cases hs : d.length > MAX_VALUE_SIZE_BYTES
    · rw [if_pos hs] at h
      exact absurd h (by simp)
    · rw [if_neg hs] at h
      simp only [Except.ok.injEq] at h
      exact ⟨by simpa [valueSizeOf] using Nat.le_of_not_lt hs, h.symm⟩
  | bytes d =>
    simp only [check_value_size] at h
    by_cases hs : d.length > MAX_VALUE_SIZE_BYTES
    · rw [if_pos hs] at h
      exact absurd h (by simp)
    · rw [if_neg hs] at h
      simp only [Except.ok.injEq] at h
      exact ⟨by simpa [valueSizeOf] using Nat.le_of_not_lt hs, h.symm⟩

theorem check_value_size_ok_of (v : Value)
    (h : valueSizeOf v ≤ MAX_VALUE_SIZE_BYTES) :
    check_value_size v = .ok (valueSizeOf v) := by
  cases v with
  | u64 n => rfl
  | v8 d =>
    simp only [check_value_size, valueSizeOf]
    rw [if_neg (Nat.not_lt.mpr (by simpa [valueSizeOf] using h))]
  | bytes d =>
    simp only [check_value_size, valueSizeOf]
    rw [if_neg (Nat.not_lt.mpr (by simpa [valueSizeOf] using h))]

theorem check_enqueue_payload_size_ok_inv (p : Bytes) (y : Nat)
    (h : check_enqueue_payload_size p = .ok y) :
    p.length ≤ MAX_VALUE_SIZE_BYTES ∧ y = p.length := by
  unfold check_enqueue_payload_size at h
  by_cases hs : p.length > MAX_VALUE_SIZE_BYTES
  · rw [if_pos hs] at h
    exact absurd h (by simp)
  · rw [if_neg hs] at h
    simp only [Except.ok.injEq] at h
    exact ⟨Nat.le_of_not_lt hs, h.symm⟩

theorem check_enqueue_payload_size_ok_of (p : Bytes)
    (h : p.length ≤ MAX_VALUE_SIZE_BYTES) :
    check_enqueue_payload_size p = .ok p.length := by
  unfold check_enqueue_payload_size
  rw [if_neg (Nat.not_lt.mpr h)]

/-- Claim C6: the validation of `op_kv_atomic_write` succeeds exactly when
every limit holds — at most 10 checks, at most 1000 mutations plus
enqueues, no empty key, every key at most 2048 bytes, every value and
enqueue payload at most 65536 bytes, total payload at most 819200 bytes
and total key bytes at most 81920 — and any validation error is surfaced
before the transaction, leaving the state unchanged. -/
theorem claim_C6 (st : DbState) (checks : List KvCheck)
    (mutations : List KvMutation) (enqueues : List Enqueue) (now : Nat)
    (freshIds : Nat → String) :
    (validate_atomic_write checks mutations enqueues = .ok () ↔
      (checks.length ≤ MAX_CHECKS ∧
       mutations.length + enqueues.length ≤ MAX_MUTATIONS ∧
       (∀ key ∈ checks.map (fun c => c.key) ++ mutations.map (fun m => m.key),
          key ≠ [] ∧ key.length ≤ MAX_WRITE_KEY_SIZE_BYTES) ∧
       (∀ v ∈ mutations.filterMap (fun m => m.kind.value),
          valueSizeOf v ≤ MAX_VALUE_SIZE_BYTES) ∧
       (∀ e ∈ enqueues, e.payload.length ≤ MAX_VALUE_SIZE_BYTES) ∧
       ((checks.map (fun c => c.key) ++ mutations.map (fun m => m.key)).map
           List.length).sum
         + ((mutations.filterMap (fun m => m.kind.value)).map valueSizeOf).sum
         + (enqueues.map (fun e => e.payload.length)).sum
           ≤ MAX_TOTAL_MUTATION_SIZE_BYTES ∧
       ((checks.map (fun c => c.key) ++ mutations.map (fun m => m.key)).map
           List.length).sum ≤ MAX_TOTAL_KEY_SIZE_BYTES)) ∧
    (∀ e, validate_atomic_write checks mutations enqueues = .error e →
      op_kv_atomic_write st checks mutations enqueues now freshIds =
        (st, .error e)) := by
  constructor
  · constructor
    · intro h
      unfold validate_atomic_write at h
      split_ifs at h with h1 h2
      rcases hk : exceptMapM
          (fun key => if key.isEmpty then Except.error "key cannot be empty"
            else check_write_key_size key)
          (checks.map (fun c => c.key) ++ mutations.map (fun m => m.key)) with e | ks
      · rw [hk] at h
        cases h
      rcases hv : exceptMapM check_value_size
          (mutations.filterMap fun m => m.kind.value) with e | vsz
      · rw [hk, hv] at h
        cases h
      rcases hp : exceptMapM (fun e => check_enqueue_payload_size e.payload)
          enqueues with e | psz
      · rw [hk, hv, hp] at h
        cases h
      rw [hk, hv, hp] at h
      simp only [Except.bind] at h
      have hkeys : ∀ key ∈ checks.map (fun c => c.key) ++
          mutations.map (fun m => m.key),
          key ≠ [] ∧ key.length ≤ MAX_WRITE_KEY_SIZE_BYTES := by
        intro key hkey
        obtain ⟨y, hy⟩ := exceptMapM_forall_ok _ _ _ hk key hkey
        obtain ⟨a, b, _⟩ := key_check_ok_inv key y hy
        exact ⟨a, b⟩
      have hvals : ∀ v ∈ mutations.filterMap (fun m => m.kind.value),
          valueSizeOf v ≤ MAX_VALUE_SIZE_BYTES := by
        intro v hvmem
        obtain ⟨y, hy⟩ := exceptMapM_forall_ok _ _ _ hv v hvmem
        exact (check_value_size_ok_inv v y hy).1
      have hpays : ∀ e ∈ enqueues, e.payload.length ≤ MAX_VALUE_SIZE_BYTES := by
        intro e hemem
        obtain ⟨y, hy⟩ := exceptMapM_forall_ok _ _ _ hp e hemem
        exact (check_enqueue_payload_size_ok_inv _ y hy).1
      have hks : ks = (checks.map (fun c => c.key) ++
          mutations.map (fun m => m.key)).map List.length :=
        exceptMapM_values _ _ _ _ hk fun key hkey => by
          obtain ⟨a, b⟩ := hkeys key hkey
          exact key_check_ok_of key a b
      have hvs : vsz = (mutations.filterMap (fun m => m.kind.value)).map valueSizeOf :=
        exceptMapM_values _ _ _ _ hv fun v hvmem =>
          check_value_size_ok_of v (hvals v hvmem)
      have hps : psz = enqueues.map (fun e => e.payload.length) :=
        exceptMapM_values _ _ _ _ hp fun e hemem => by
          have := check_enqueue_payload_size_ok_of _ (hpays e hemem)
          simpa using this
      subst hks hvs hps
      split_ifs at h with h3 h4
      refine ⟨by omega, by omega, hkeys, hvals, hpays, by omega, by omega⟩
    · rintro ⟨h1, h2, hkeys, hvals, hpays, ht1, ht2⟩
      unfold validate_atomic_write
      rw [if_neg (by omega), if_neg (by omega)]
      rw [exceptMapM_ok_of _ List.length _
        (fun key hkey => key_check_ok_of key (hkeys key hkey).1 (hkeys key hkey).2)]
      rw [exceptMapM_ok_of _ valueSizeOf _
        (fun v hv => check_value_size_ok_of v (hvals v hv))]
      rw [exceptMapM_ok_of _ (fun e => e.payload.length) _
        (fun e he => check_enqueue_payload_size_ok_of _ (hpays e he))]
      simp only [Except.bind]
      rw [if_neg (by omega), if_neg (by omega)]
  · intro e h
    simp [op_kv_atomic_write, h]

/-- Witness for claim C6: a write with a key of exactly 2048 bytes and a
value of exactly 65536 bytes validates, and eleven checks surface the
"too many checks" error with the state unchanged. -/
theorem claim_C6_witness :
    validate_atomic_write [⟨List.replicate 2048 7, none⟩]
      [⟨[1], .set (.v8 (List.replicate 65536 0)), none⟩] [] = .ok () ∧
    op_kv_atomic_write ⟨0, [], [], []⟩ (List.replicate 11 ⟨[1], none⟩) [] [] 0
      (fun _ => "id") = (⟨0, [], [], []⟩, .error "too many checks (max 10)") := by
  constructor
  · have hgen : ∀ K V : Bytes, K.length = 2048 → V.length = 65536 →
        validate_atomic_write [⟨K, none⟩] [⟨[1], .set (.v8 V), none⟩] [] = .ok () := by
      intro K V hK hV
      refine (claim_C6 ⟨0, [], [], []⟩ [⟨K, none⟩] [⟨[1], .set (.v8 V), none⟩] [] 0
        (fun _ => "id")).1.mpr ⟨?_, ?_, ?_, ?_, ?_, ?_, ?_⟩
      · show 1 ≤ MAX_CHECKS
        norm_num [MAX_CHECKS]
      · show 1 + 0 ≤ MAX_MUTATIONS
        norm_num [MAX_MUTATIONS]
      · intro key hkey
        simp only [List.map_cons, List.map_nil, List.cons_append, List.nil_append,
          List.mem_cons, List.mem_singleton, List.not_mem_nil, or_false] at hkey
        rcases hkey with rfl | rfl
        · constructor
          · intro hnil
            rw [hnil] at hK
            simp at hK
          · rw [hK]
            norm_num [MAX_WRITE_KEY_SIZE_BYTES]
        · exact ⟨by simp, by norm_num [MAX_WRITE_KEY_SIZE_BYTES]⟩
      · intro v hv
        simp only [List.filterMap_cons, List.filterMap_nil, MutationKind.value,
          List.mem_cons, List.not_mem_nil, or_false] at hv
        subst hv
        simp only [valueSizeOf]
        rw [hV]
        norm_num [MAX_VALUE_SIZE_BYTES]
      · intro e he
        cases he
      · simp only [List.map_cons, List.map_nil, List.cons_append, List.nil_append,
          List.filterMap_cons, List.filterMap_nil, MutationKind.value, valueSizeOf,
          List.sum_cons, List.sum_nil]
        rw [hK, hV]
        norm_num [MAX_TOTAL_MUTATION_SIZE_BYTES]
      · simp only [List.map_cons, List.map_nil, List.cons_append, List.nil_append,
          List.sum_cons, List.sum_nil]
        rw [hK]
        norm_num [MAX_TOTAL_KEY_SIZE_BYTES]
    exact hgen _ _ (List.length_replicate _ _) (List.length_replicate _ _)
  · exact (claim_C6 ⟨0, [], [], []⟩ (List.replicate 11 ⟨[1], none⟩) [] [] 0
      (fun _ => "id")).2 "too many checks (max 10)" (by rfl)

/-! ### Claim C7 -/

/-- Claim C7: the five valid selector combinations materialize to the
documented half-open ranges — a prefixed selector to
`[start ?? pfx ++ 0x00, end ?? pfx ++ 0xff)`, an explicit range as given,
a start-only selector to `[start, start ++ 0x00)` — and the invalid
combinations (prefix with both bounds, end alone, none at all) fail with
the invalid-range error. -/
theorem claim_C7 (p s e : Bytes) :
    (RawSelector.from_tuple (some p) none none = .ok (.prefixed p none none) ∧
     (RawSelector.prefixed p none none).range_start_key = p ++ [0] ∧
     (RawSelector.prefixed p none none).range_end_key = p ++ [255]) ∧
    (RawSelector.from_tuple (some p) (some s) none = .ok (.prefixed p (some s) none) ∧
     (RawSelector.prefixed p (some s) none).range_start_key = s ∧
     (RawSelector.prefixed p (some s) none).range_end_key = p ++ [255]) ∧
    (RawSelector.from_tuple (some p) none (some e) = .ok (.prefixed p none (some e)) ∧
     (RawSelector.prefixed p none (some e)).range_start_key = p ++ [0] ∧
     (RawSelector.prefixed p none (some e)).range_end_key = e) ∧
    (RawSelector.from_tuple none (some s) (some e) = .ok (.range s e) ∧
     (RawSelector.range s e).range_start_key = s ∧
     (RawSelector.range s e).range_end_key = e) ∧
    (RawSelector.from_tuple none (some s) none = .ok (.range s (s ++ [0])) ∧
     (RawSelector.range s (s ++ [0])).range_start_key = s ∧
     (RawSelector.range s (s ++ [0])).range_end_key = s ++ [0]) ∧
    RawSelector.from_tuple (some p) (some s) (some e) = .error "invalid range" ∧
    RawSelector.from_tuple none none (some e) = .error "invalid range" ∧
    RawSelector.from_tuple none none none = .error "invalid range" :=
  ⟨⟨rfl, rfl, rfl⟩, ⟨rfl, rfl, rfl⟩, ⟨rfl, rfl, rfl⟩, ⟨rfl, rfl, rfl⟩,
   ⟨rfl, rfl, rfl⟩, rfl, rfl, rfl⟩

/-! ### Claim C8 -/

theorem bytesLt_irrefl : ∀ a : Bytes, bytesLt a a = false := by
  intro a
  induction a with
  | nil => rfl
  | cons x xs ih => simp [bytesLt, ih]

theorem startOpt_range_start_key (selector : RawSelector) (s : Bytes)
    (h : selector.startOpt = some s) : selector.range_start_key = s := by
  cases selector with
  | prefixed p s0 e0 =>
    cases s0 with
    | none => exact absurd h (by simp [RawSelector.startOpt])
    | some s1 =>
      simp only [RawSelector.startOpt, Option.some.injEq] at h
      subst h
      rfl
  | range s0 e0 =>
    simp only [RawSelector.startOpt, Option.some.injEq] at h
    subst h
    rfl

theorem endOpt_range_end_key (selector : RawSelector) (e : Bytes)
    (h : selector.endOpt = some e) : selector.range_end_key = e := by
  cases selector with
  | prefixed p s0 e0 =>
    cases e0 with
    | none => exact absurd h (by simp [RawSelector.endOpt])
    | some e1 =>
      simp only [RawSelector.endOpt, Option.some.injEq] at h
      subst h
      cases s0 <;> rfl
  | range s0 e0 =>
    simp only [RawSelector.endOpt, Option.some.injEq] at h
    subst h
    rfl

/-- Claim C8: a cursored range read decodes the cursor from URL-safe
base64 into a key suffix; a forward read resumes at
`common_prefix ++ cursor ++ 0x00` and a reverse read terminates at
`common_prefix ++ cursor`; a resumed start below the declared start, or a
resumed end above the declared end, fails with the cursor-out-of-bounds
error, and an undecodable cursor fails with the invalid-cursor error. -/
theorem claim_C8 (selector : RawSelector) (cur : List Char) (suffix : Bytes)
    (hdec : base64UrlDecode cur = some suffix) :
    ((∀ s, selector.startOpt = some s →
        bytesLt (selector.common_part ++ suffix ++ [0]) s = false) →
      decode_selector_and_cursor selector false (some cur) =
        .ok (selector.common_part ++ suffix ++ [0], selector.range_end_key)) ∧
    (∀ s, selector.startOpt = some s →
      bytesLt (selector.common_part ++ suffix ++ [0]) s = true →
      decode_selector_and_cursor selector false (some cur) =
        .error "cursor out of bounds") ∧
    ((∀ e, selector.endOpt = some e →
        bytesLt e (selector.common_part ++ suffix) = false) →
      decode_selector_and_cursor selector true (some cur) =
        .ok (selector.range_start_key, selector.common_part ++ suffix)) ∧
    (∀ e, selector.endOpt = some e →
      bytesLt e (selector.common_part ++ suffix) = true →
      decode_selector_and_cursor selector true (some cur) =
        .error "cursor out of bounds") ∧
    (∀ badCur : List Char, base64UrlDecode badCur = none →
      ∀ reverse, decode_selector_and_cursor selector reverse (some badCur) =
        .error "invalid cursor") := by
  refine ⟨?_, ?_, ?_, ?_, ?_⟩
  · intro hok
    have hstart : (match selector.startOpt with
        | some s => bytesLt (selector.common_part ++ (suffix ++ [0])) s
        | none => false) = false := by
      cases hs : selector.startOpt with
      | none => rfl
      | some s =>
        have h' := hok s hs
        rw [List.append_assoc] at h'
        exact h'
    have hend : (match selector.endOpt with
        | some e => bytesLt e selector.range_end_key
        | none => false) = false := by
      cases he : selector.endOpt with
      | none => rfl
      | some e =>
        rw [endOpt_range_end_key selector e he]
        exact bytesLt_irrefl e
    simp [decode_selector_and_cursor, hdec, hstart, hend]
  · intro s hs hlt
    have hstart : (match selector.startOpt with
        | some s => bytesLt (selector.common_part ++ (suffix ++ [0])) s
        | none => false) = true := by
      rw [hs]
      rw [List.append_assoc] at hlt
      exact hlt
    simp [decode_selector_and_cursor, hdec, hstart]
  · intro hok
    have hstart : (match selector.startOpt with
        | some s => bytesLt selector.range_start_key s
        | none => false) = false := by
      cases hs : selector.startOpt with
      | none => rfl
      | some s =>
        rw [startOpt_range_start_key selector s hs]
        exact bytesLt_irrefl s
    have hend : (match selector.endOpt with
        | some e => bytesLt e (selector.common_part ++ suffix)
        | none => false) = false := by
      cases he : selector.endOpt with
      | none => rfl
      | some e => exact hok e he
    simp [decode_selector_and_cursor, hdec, hstart, hend]
  · intro e he hlt
    have hstart : (match selector.startOpt with
        | some s => bytesLt selector.range_start_key s
        | none => false) = false := by
      cases hs : selector.startOpt with
      | none => rfl
      | some s =>
        rw [startOpt_range_start_key selector s hs]
        exact bytesLt_irrefl s
    have hend : (match selector.endOpt with
        | some e => bytesLt e (selector.common_part ++ suffix)
        | none => false) = true := by
      rw [he]
      exact hlt
    simp [decode_selector_and_cursor, hdec, hstart, hend]
  · intro badCur hbad reverse
    simp [decode_selector_and_cursor, hbad]

/-- Witness for claim C8: resuming the prefixed selector `{prefix [1]}`
forward with cursor "YWJj" (base64 of `[97, 98, 99]`) yields the range
`[1, 97, 98, 99, 0] .. [1, 255]`, while resuming the explicit range
`[5] .. [6]` forward with cursor "AA==" (base64 of `[0]`) is out of
bounds. -/
theorem claim_C8_witness :
    decode_selector_and_cursor (.prefixed [1] none none) false
      (some "YWJj".data) = .ok ([1, 97, 98, 99, 0], [1, 255]) ∧
    decode_selector_and_cursor (.range [5] [6]) false (some "AA==".data) =
      .error "cursor out of bounds" := by
  constructor
  · exact (claim_C8 (.prefixed [1] none none) "YWJj".data [97, 98, 99]
      (by rfl)).1 (by intro s hs; cases hs)
  · exact (claim_C8 (.range [5] [6]) "AA==".data [0] (by rfl)).2.1 [5]
      (by rfl) (by rfl)

/-! ### Claim C9 -/

theorem foldl_kv_point_set_get (data : Bytes) (enc version expir : Int) :
    ∀ (keys : List Bytes) (kv : List KvRow) (k : Bytes),
      kv_point_get (keys.foldl
        (fun kv key => kv_point_set kv ⟨key, data, enc, version, expir⟩) kv) k =
        if k ∈ keys then some ⟨k, data, enc, version, expir⟩
        else kv_point_get kv k := by
  intro keys
  induction keys with
  | nil =>
    intro kv k
    simp
  | cons key keys ih =>
    intro kv k
    simp only [List.foldl_cons]
    rw [ih]
    by_cases hk : k ∈ keys
    · rw [if_pos hk, if_pos (List.mem_cons_of_mem _ hk)]
    · rw [if_neg hk, kv_point_get_set]
      by_cases h2 : key = k
      · subst h2
        rw [if_pos rfl, if_pos (List.mem_cons_self _ _)]
      · rw [if_neg h2, if_neg (by
          intro hmem
          rcases List.mem_cons.1 hmem with rfl | h3
          · exact h2 rfl
          · exact hk h3)]

theorem find?_filter_id_none (l : List QueueRunningRow) (id : String) :
    (l.filter (fun r => !(r.id == id))).find? (fun r => r.id == id) = none :=
  find?_filter_none l _ _ (by
    intro a ha
    simp only [Bool.not_eq_true'] at ha
    exact ha)

theorem jsonEncodeKeys_not_empty (ks : List Bytes) :
    (jsonEncodeKeys ks).isEmpty = false := rfl

/-- Claim C9: when the running row for `id` exists, the requeue rule — in
one transaction — either (schedule non-empty, head `d`) inserts a ready
row at `now + d` carrying the tail schedule and reports a requeue, or
(schedule empty) writes the payload as a V8 value under every
`keys_if_undelivered` key at the freshly incremented data version and
reports no requeue; in both cases the running row is deleted. -/
theorem claim_C9 (st : DbState) (now : Nat) (id : String) (row : QueueRunningRow)
    (hfind : st.queue_running.find? (fun r => r.id == id) = some row) :
    (∀ d rest, row.backoff_schedule.getD [] = d :: rest →
      requeue_message id st now =
        .ok ({ st with
                queue := st.queue ++
                  [⟨now + d, row.id, row.data, some rest, row.keys_if_undelivered⟩],
                queue_running := st.queue_running.filter (fun r => !(r.id == id)) },
             true) ∧
      (st.queue_running.filter (fun r => !(r.id == id))).find?
        (fun r => r.id == id) = none) ∧
    (row.backoff_schedule.getD [] = [] →
      ∃ st', requeue_message id st now = .ok (st', false) ∧
        st'.data_version = st.data_version + 1 ∧
        (∀ key ∈ row.keys_if_undelivered,
          kv_point_get st'.kv key =
            some ⟨key, row.data, VALUE_ENCODING_V8, st.data_version + 1, -1⟩) ∧
        st'.queue = st.queue ∧
        st'.queue_running.find? (fun r => r.id == id) = none) := by
  constructor
  · intro d rest hsched
    constructor
    · simp only [requeue_message, hfind, hsched]
    · exact find?_filter_id_none _ _
  · intro hsched
    refine ⟨{ st with
        data_version := st.data_version + 1,
        kv := row.keys_if_undelivered.foldl
          (fun kv key => kv_point_set kv
            ⟨key, row.data, VALUE_ENCODING_V8, st.data_version + 1, -1⟩) st.kv,
        queue_running := st.queue_running.filter (fun r => !(r.id == id)) },
      ?_, rfl, ?_, rfl, find?_filter_id_none _ _⟩
    · simp only [requeue_message, hfind, hsched, jsonEncodeKeys_not_empty,
        Bool.false_eq_true, if_false]
    · intro key hkey
      rw [foldl_kv_point_set_get, if_pos hkey]

/-- Witness for claim C9: a running row with schedule `[7, 9]` is requeued
at `now + 7` with tail `[9]`; one with an empty schedule dead-letters its
payload under `[2]` at the incremented version; both delete the running
row. -/
theorem claim_C9_witness :
    (requeue_message "a" ⟨0, [], [], [⟨10, "a", [170], some [7, 9], [[2]]⟩]⟩ 100 =
      .ok (⟨0, [], [⟨107, "a", [170], some [9], [[2]]⟩], []⟩, true)) ∧
    (∃ st', requeue_message "a" ⟨0, [], [], [⟨10, "a", [170], some [], [[2]]⟩]⟩ 100 =
        .ok (st', false) ∧
      st'.data_version = 0 + 1 ∧
      kv_point_get st'.kv [2] = some ⟨[2], [170], VALUE_ENCODING_V8, 0 + 1, -1⟩) := by
  constructor
  · have h := ((claim_C9 ⟨0, [], [], [⟨10, "a", [170], some [7, 9], [[2]]⟩]⟩ 100 "a"
      ⟨10, "a", [170], some [7, 9], [[2]]⟩ (by rfl)).1 7 [9] (by rfl)).1
    exact h
  · obtain ⟨st', h1, h2, h3, -, -⟩ :=
      (claim_C9 ⟨0, [], [], [⟨10, "a", [170], some [], [[2]]⟩]⟩ 100 "a"
        ⟨10, "a", [170], some [], [[2]]⟩ (by rfl)).2 (by rfl)
    exact ⟨st', h1, h2, h3 [2] (by simp)⟩

/-! ### Claim C10 -/

/-- Claim C10: on a freshly dequeued message handle (constructed with
`payload: Some(..)`), the first `take_payload` returns the payload and
empties it; on any handle whose payload is consumed, `take_payload` fails
with the "Payload already consumed" error, so every subsequent call on
the same handle fails. -/
theorem claim_C10 (id : String) (payload : Bytes) :
    (take_payload (dequeuedMessageOf id payload)).1 = .ok payload ∧
    ((take_payload (dequeuedMessageOf id payload)).2).payload = none ∧
    (∀ m : DequeuedMessage, m.payload = none →
      take_payload m = (.error "Payload already consumed", m)) ∧
    (take_payload ((take_payload (dequeuedMessageOf id payload)).2)).1 =
      .error "Payload already consumed" := by
  refine ⟨rfl, rfl, ?_, rfl⟩
  intro m hm
  obtain ⟨mid, mpayload⟩ := m
  cases mpayload with
  | none => rfl
  | some p => cases hm

/-- Witness for claim C10 at a concrete handle. -/
theorem claim_C10_witness :
    (take_payload (dequeuedMessageOf "a" [1, 2])).1 = .ok [1, 2] ∧
    (take_payload ⟨"a", none⟩) = (.error "Payload already consumed", ⟨"a", none⟩) := by
  constructor
  · exact (claim_C10 "a" [1, 2]).1
  · exact (claim_C10 "a" [1, 2]).2.2.1 ⟨"a", none⟩ (by rfl)

end DenoKv
